import Mathlib

/-!
A shallow embedding of `src/server/engine/src/trial.py` (the AddBiomechanics
processing engine): the `Trial` / `TrialSegment` data model, force-plate
autoclipping, trial segmentation (`split_segments`) and per-segment low-pass
filtering, together with proofs and refutations of the specified properties.

Modelling conventions:
* Python floats are modelled as exact rationals.
* `np.linalg.norm` produces irrational values in general, so the development
  is parametric in a norm function `nrm : Vec3 → ℚ`; the order properties a
  theorem needs from the Euclidean norm (non-negativity, definiteness) are
  explicit hypotheses.
* scipy's `butter`/`filtfilt` is an external routine and is modelled as an
  opaque function parameter applied to the data blocks the source passes it.
* A Python runtime error (IndexError, AssertionError, ZeroDivisionError,
  AttributeError, ValueError) is modelled by an `Option` result: `none`
  means the call raises.
-/

/-- A 3-vector of rationals, modelling an `np.ndarray` of shape `(3,)`. -/
abbrev Vec3 : Type := ℚ × ℚ × ℚ

/-- The zero 3-vector, `np.zeros(3)`. -/
def v3zero : Vec3 := (0, 0, 0)

/-- One marker-position component; `none` models a float NaN. -/
abbrev MComp : Type := Option ℚ

/-- A marker position: a 3-vector whose components may be NaN. -/
abbrev MVec : Type := MComp × MComp × MComp

/-- One frame of marker observations: an association list from marker name to
position, modelling a Python dict in iteration order. -/
abbrev MarkerFrame : Type := List (String × MVec)

/-- Model of `np.any(np.isnan(v))` for a marker position. -/
def mvecHasNaN (v : MVec) : Bool := v.1.isNone || v.2.1.isNone || v.2.2.isNone

/-- One component of `np.abs(v) > 1e6`; `abs` of NaN is NaN and compares
false. -/
def mcompLarge (c : MComp) : Bool :=
  match c with
  | none => false
  | some x => decide (1000000 < |x|)

/-- Model of `np.any(np.abs(v) > 1e6)` for a marker position. -/
def mvecLarge (v : MVec) : Bool := mcompLarge v.1 || mcompLarge v.2.1 || mcompLarge v.2.2

/-- Python `int()` applied to an exact rational: truncation toward zero. -/
def pyInt (q : ℚ) : Int := q.num.tdiv q.den

/-- The raw per-plate channel data that `Trial.set_force_plates` copies into
Python memory: `force_plate_raw_forces[i]`, `force_plate_raw_cops[i]`,
`force_plate_raw_moments[i]` and `force_plate_thresholds[i]`, bundled per
plate index `i`. -/
structure PlateData where
  forces : List Vec3
  cops : List Vec3
  moments : List Vec3
  threshold : ℚ
deriving DecidableEq

/-- A numpy 2-D array: row count, column count and row-major data. -/
structure NpMatrix where
  nrows : Nat
  ncols : Nat
  rows : List (List ℚ)
deriving DecidableEq

/-- The bin range `np.histogram` uses: (data min, data max), except `(0, 1)`
for empty data and `(m - 0.5, m + 0.5)` when every value equals `m`. -/
def histRange (xs : List ℚ) : ℚ × ℚ :=
  match xs with
  | [] => (0, 1)
  | x :: rest =>
    let lo := rest.foldl min x
    let hi := rest.foldl max x
    if lo = hi then (lo - 1/2, lo + 1/2) else (lo, hi)

/-- Model of `np.histogram(xs, bins=n)`: `n` equal-width bins over `histRange xs`;
bin `j` counts the values in `[edge j, edge (j+1))`, with the last bin also
counting values equal to the top edge.  Returns `(counts, bin_edges)`. -/
def npHistogram (xs : List ℚ) (n : Nat) : List Nat × List ℚ :=
  let lo := (histRange xs).1
  let hi := (histRange xs).2
  let w : ℚ := (hi - lo) / (n : ℚ)
  let edges := (List.range (n + 1)).map (fun j => lo + (j : ℚ) * w)
  let counts := (List.range n).map (fun j =>
    xs.countP (fun x =>
      decide (lo + (j : ℚ) * w ≤ x) &&
      (decide (x < lo + ((j : ℚ) + 1) * w) || (decide (j + 1 = n) && decide (x = hi)))))
  (counts, edges)

/-- Model of `np.argmax`: index of the first maximal entry (0 for the empty list). -/
def npArgmax (l : List Nat) : Nat :=
  (l.foldl (fun (s : Nat × Nat × Nat) c =>
    if s.2.1 < c then (s.2.2, c, s.2.2 + 1) else (s.1, s.2.1, s.2.2 + 1)) (0, 0, 0)).1

/-- Lines 189-193 of `autoclip_force_plates`: scan the bins rightward from
the peak for the first one whose count drops below the average bin value;
the peak index itself is the default when no bin qualifies. -/
def findRightBound (hist : List Nat) (avg : ℚ) (start numBins : Nat) : Nat :=
  match (List.range' start (numBins - start)).find?
      (fun j => decide ((hist.getD j 0 : ℚ) < avg)) with
  | some j => j
  | none => start

/-- The body of the per-plate loop of `Trial.autoclip_force_plates`
(lines 176-213).  `trialLen` is `len(self.marker_observations)`; the code
fills `force_norms[t]` for every `t < trial_len` from the force channel, and
we model the well-formed case (asserted by `set_force_plates`) in which the
channel has exactly `trialLen` frames, so the norm series is `forces.map nrm`. -/
def autoclipPlate (nrm : Vec3 → ℚ) (trialLen : Nat) (p : PlateData) : PlateData :=
  let numBins : Nat := 200
  let forceNorms : List ℚ := p.forces.map nrm
  let hist := (npHistogram forceNorms numBins).1
  let binEdges := (npHistogram forceNorms numBins).2
  let avgBinValue : ℚ := (trialLen : ℚ) / (numBins : ℚ)
  let histMaxIndex : Nat := npArgmax hist
  if (histMaxIndex : ℚ) < (numBins : ℚ) / 4 then
    let rightBound := findRightBound hist avgBinValue histMaxIndex numBins
    if (numBins : ℚ) / 2 < (rightBound : ℚ) then
      p
    else
      let zeroThreshold : ℚ := binEdges.getD rightBound 0
      { forces := p.forces.map (fun v => if nrm v < zeroThreshold then v3zero else v),
        cops := (forceNorms.zip p.cops).map (fun nc => if nc.1 < zeroThreshold then v3zero else nc.2),
        moments := (forceNorms.zip p.moments).map (fun nc => if nc.1 < zeroThreshold then v3zero else nc.2),
        threshold := zeroThreshold }
  else p

/-- The full, unsegmented recording (`class Trial`), restricted to the fields
the specified properties involve. -/
structure Trial where
  marker_observations : List MarkerFrame
  plates : List PlateData
  timestamps : List ℚ
  timestep : ℚ
  error : Bool
  manually_scaled_ik : Option NpMatrix
deriving DecidableEq

/-- Method `Trial.autoclip_force_plates` (lines 172-213): clip every plate in
place. -/
def Trial.autoclip_force_plates (nrm : Vec3 → ℚ) (tr : Trial) : Trial :=
  { tr with plates := tr.plates.map (autoclipPlate nrm tr.marker_observations.length) }

/-- Method `Trial.set_force_plates` (lines 157-170): record the raw channels with a
0 threshold per plate, then run the autoclipper.  The assertion that a
nonempty force channel matches the marker frame count raises (`none`) when
violated. -/
def Trial.set_force_plates (nrm : Vec3 → ℚ) (tr : Trial) (newPlates : List PlateData) :
    Option Trial :=
  if newPlates.all (fun p =>
      p.forces.length = 0 || p.forces.length = tr.marker_observations.length) then
    some (Trial.autoclip_force_plates nrm
      { tr with plates := newPlates.map (fun p => { p with threshold := 0 }) })
  else none

/-- Lines 78-79 (and 98-99) of `Trial.load_trial`: the derived timestep.
`self.timestep` keeps its `__init__` default `0.01` unless there are at
least two timestamps. -/
def loadTimestep (timestamps : List ℚ) : ℚ :=
  if 1 < timestamps.length then
    (timestamps.getLastD 0 - timestamps.headD 0) / (timestamps.length : ℚ)
  else 1 / 100

/-- Indices `i` of `range(1, len(l))` with `l[i] != l[i-1]` (the transition
split points of lines 228-230 and 256-258). -/
def boolTransitions (l : List Bool) : List Nat :=
  (List.range l.length).filter (fun i => decide (1 ≤ i) && (l.getD i false != l.getD (i - 1) false))

/-- Python `sorted(list(set(l)))` (lines 260 and 270). -/
def sortedDedup (l : List Nat) : List Nat := l.dedup.insertionSort (· ≤ ·)

/-- Set entries `a ≤ j < b` of a boolean list to `true`: the gap fills
`for j in range(last_transition_off, i + 1)` / `range(last_transition_off,
len(has_forces))`. -/
def fillTrue (l : List Bool) (a b : Nat) : List Bool :=
  l.mapIdx (fun j v => if a ≤ j ∧ j < b then true else v)

/-- The gap-fill loop of `split_segments` (lines 244-251), as recursion on
the number of remaining iterations; `i` is the loop index and `last` is
`last_transition_off`.  The quotient `int(max_grf_gap_fill_size / timestep)`
is evaluated only in the branch that compares against it, as in Python, and
raises (`none`) when `timestep = 0`.  Returns the filled list and the final
`last_transition_off`. -/
def gapFillGo (maxGap ts : ℚ) : Nat → Nat → Nat → List Bool → Option (List Bool × Nat)
  | 0, _, last, hf => some (hf, last)
  | steps + 1, i, last, hf =>
    if hf.getD i false then
      if hf.getD (i + 1) false then
        gapFillGo maxGap ts steps (i + 1) last hf
      else
        gapFillGo maxGap ts steps (i + 1) (i + 1) hf
    else
      if hf.getD (i + 1) false then
        if ts = 0 then none
        else if ((i : Int) - (last : Int)) < pyInt (maxGap / ts) then
          gapFillGo maxGap ts steps (i + 1) last (fillTrue hf last (i + 1))
        else
          gapFillGo maxGap ts steps (i + 1) last hf
      else
        gapFillGo maxGap ts steps (i + 1) last hf

/-- Lines 243-254 of `split_segments`: fill the short "off" gaps of
`has_forces`, including the trailing-gap special case.  Reading
`has_forces[-1]` on an empty list raises (`none`). -/
def gapFill (maxGap ts : ℚ) (hf : List Bool) : Option (List Bool) := do
  let r ← gapFillGo maxGap ts (hf.length - 1) 0 0 hf
  match r.1.getLast? with
  | none => none
  | some b =>
    if b then some r.1
    else
      if ts = 0 then none
      else if ((r.1.length : Int) - (r.2 : Int)) < pyInt (maxGap / ts) then
        some (fillTrue r.1 r.2 r.1.length)
      else some r.1

/-- Lines 234-241 of `split_segments`: the per-frame total of
`||force[t]|| + ||moment[t]||` over all plates, starting from
`[0.0] * len(marker_observations)`.  The asserts that each channel has the
trial length raise (`none`) when violated. -/
def totalForces (nrm : Vec3 → ℚ) (nFrames : Nat) (plates : List PlateData) :
    Option (List ℚ) :=
  plates.foldl (fun acc p =>
    match acc with
    | none => none
    | some tf =>
      if p.forces.length = nFrames ∧ p.moments.length = nFrames then
        some ((tf.zip (p.forces.zip p.moments)).map
          (fun x => x.1 + nrm x.2.1 + nrm x.2.2))
      else none) (some (List.replicate nFrames (0 : ℚ)))

/-- Consecutive pairs of a list of split points. -/
def consecPairs (l : List Nat) : List (Nat × Nat) := l.zip l.tail

/-- The split points Python's `range(max_segment_frames, segment_length,
max_segment_frames)` inserts into one over-long gap starting at `p`
(lines 266-268): `p + maxSeg * k` for `1 ≤ k ≤ (gap - 1) / maxSeg`. -/
def lengthSplitsFor (p gap maxSeg : Nat) : List Nat :=
  (List.range ((gap - 1) / maxSeg)).map (fun k => p + maxSeg * (k + 1))

/-- Lines 263-269 of `split_segments`: collect the extra length-cap split
points of every over-long gap.  Constructing the Python range with step 0
raises (`none`). -/
def lengthSplitPoints (sp : List Nat) (maxSeg : Nat) : Option (List Nat) :=
  (consecPairs sp).foldl (fun acc pq =>
    match acc with
    | none => none
    | some pts =>
      if maxSeg < pq.2 - pq.1 then
        if maxSeg = 0 then none
        else some (pts ++ lengthSplitsFor pq.1 (pq.2 - pq.1) maxSeg)
      else some pts) (some [])

/-- Enum `ProcessingStatus` (lines 11-15). -/
inductive ProcessingStatus where
  | NOT_STARTED
  | IN_PROGRESS
  | FINISHED
  | ERROR
deriving DecidableEq

/-- The error messages `TrialSegment.__init__` can record in
`self.error_msg`, as tags (the source stores formatted strings). -/
inductive SegErrorMsg where
  | noMsg
  | noMarkerDataFrames
  | nansInMarkerData
  | suspiciouslyLargeValues
deriving DecidableEq

/-- A bounded sub-range view of a parent `Trial` (`class TrialSegment`),
restricted to the fields the specified properties involve.  `stop` is the
source's `end` attribute (a Lean keyword).  The large-value check of
`__init__` assigns `self.error` - a fresh attribute distinct from
`self.has_error` - and it is modelled as its own field, false until that
assignment runs. -/
structure TrialSegment where
  start : Nat
  stop : Nat
  timestamps : List ℚ
  has_markers : Bool
  has_forces : Bool
  has_error : Bool
  error : Bool
  error_msg : SegErrorMsg
  original_marker_observations : List MarkerFrame
  marker_observations : List MarkerFrame
  plates : List PlateData
  manually_scaled_ik_poses : Option NpMatrix
  kinematics_status : ProcessingStatus
  kinematics_poses : Option NpMatrix
  marker_fitter_result : Option NpMatrix
  lowpass_status : ProcessingStatus
  lowpass_poses : Option NpMatrix
  lowpass_force_plates : List PlateData
deriving DecidableEq

/-- The inner marker loop of the error scan at the end of
`TrialSegment.__init__` (lines 360-369), over one frame.  The state is
`(has_error, error, error_msg)`.  The NaN branch records the error and keeps
scanning; the large-value branch assigns `self.error` (not `has_error`) and
breaks out of the inner loop. -/
def segScanFrame : Bool × Bool × SegErrorMsg → MarkerFrame → Bool × Bool × SegErrorMsg
  | st, [] => st
  | st, (_, v) :: rest =>
    if mvecHasNaN v then
      segScanFrame (true, st.2.1, SegErrorMsg.nansInMarkerData) rest
    else if mvecLarge v then
      (st.1, true, SegErrorMsg.suspiciouslyLargeValues)
    else
      segScanFrame st rest

/-- The outer frame loop of the error scan (lines 360-369). -/
def segCheckErrors (frames : List MarkerFrame) (st0 : Bool × Bool × SegErrorMsg) :
    Bool × Bool × SegErrorMsg :=
  frames.foldl segScanFrame st0

/-- Constructor `TrialSegment.__init__` (lines 280-369) for the fields modelled here.
Python list slicing `xs[start:end]` is `(xs.drop start).take (stop - start)`
(out-of-range slices clamp in both).  The copies the source takes are value
copies here. -/
def TrialSegment.init (parent : Trial) (start stop : Nat) : TrialSegment :=
  let obsSlice : List MarkerFrame :=
    (parent.marker_observations.drop start).take (stop - start)
  let plateSlice : List PlateData := parent.plates.map (fun p =>
    { forces := (p.forces.drop start).take (stop - start),
      cops := (p.cops.drop start).take (stop - start),
      moments := (p.moments.drop start).take (stop - start),
      threshold := p.threshold })
  let st0 : Bool × Bool × SegErrorMsg :=
    if obsSlice.length = 0 then (true, false, SegErrorMsg.noMarkerDataFrames)
    else (false, false, SegErrorMsg.noMsg)
  let st := segCheckErrors obsSlice st0
  { start := start
    stop := stop
    timestamps :=
      if stop ≤ parent.timestamps.length then
        (parent.timestamps.drop start).take (stop - start)
      else []
    has_markers := false
    has_forces := false
    has_error := st.1
    error := st.2.1
    error_msg := st.2.2
    original_marker_observations := obsSlice
    marker_observations := obsSlice
    plates := plateSlice
    manually_scaled_ik_poses :=
      match parent.manually_scaled_ik with
      | some m =>
        if stop ≤ m.ncols then
          some { nrows := m.nrows, ncols := stop - start,
                 rows := m.rows.map (fun r => (r.drop start).take (stop - start)) }
        else none
      | none => none
    kinematics_status := ProcessingStatus.NOT_STARTED
    kinematics_poses := none
    marker_fitter_result := none
    lowpass_status := ProcessingStatus.NOT_STARTED
    lowpass_poses := none
    lowpass_force_plates := [] }

/-- Method `Trial.split_segments` (lines 215-276).  Returns the new `segments`
list; `none` models an uncaught Python exception.  An errored trial returns
early, leaving `segments` empty. -/
def Trial.split_segments (nrm : Vec3 → ℚ) (tr : Trial)
    (max_grf_gap_fill_size : ℚ) (max_segment_frames : Nat) :
    Option (List TrialSegment) :=
  if tr.error then some [] else
  let nFrames := tr.marker_observations.length
  let has_markers : List Bool :=
    tr.marker_observations.map (fun obs => decide (0 < obs.length))
  do
  let tf ← totalForces nrm nFrames tr.plates
  let has_forces0 : List Bool := tf.map (fun f => decide ((1 : ℚ) / 1000 < f))
  let has_forces ← gapFill max_grf_gap_fill_size tr.timestep has_forces0
  let splitPoints1 := sortedDedup
    ([0, nFrames] ++ boolTransitions has_markers ++ boolTransitions has_forces)
  let lsp ← lengthSplitPoints splitPoints1 max_segment_frames
  let splitPoints := sortedDedup (splitPoints1 ++ lsp)
  some ((consecPairs splitPoints).map (fun ab =>
    { TrialSegment.init tr ab.1 ab.2 with
        has_markers := has_markers.getD ab.1 false,
        has_forces := ((has_forces.drop ab.1).take (ab.2 - ab.1)).any id }))

/-- The non-zero-run detection loop of `lowpass_filter` (lines 402-417), as
recursion on the remaining iteration count: returns the `(first, last)`
index pairs - with INCLUSIVE `last` - of the maximal runs of strictly
positive force norm, in increasing order. -/
def nonZeroSegmentsGo (norms : List ℚ) :
    Nat → Nat → Option Nat → List (Nat × Nat) → List (Nat × Nat)
  | 0, t, last, acc =>
    match last with
    | some l => acc ++ [(l, t - 1)]
    | none => acc
  | steps + 1, t, last, acc =>
    if 0 < norms.getD t 0 then
      nonZeroSegmentsGo norms steps (t + 1) (some (last.getD t)) acc
    else
      match last with
      | some l => nonZeroSegmentsGo norms steps (t + 1) none (acc ++ [(l, t - 1)])
      | none => nonZeroSegmentsGo norms steps (t + 1) none acc

/-- The list `non_zero_segments` for one plate (lines 402-417). -/
def nonZeroSegments (norms : List ℚ) (trialLen : Nat) : List (Nat × Nat) :=
  nonZeroSegmentsGo norms trialLen 0 none []

/-- Zero out the entries `a ≤ j < b` of a channel (the short-run zeroing of
lines 424-427, which runs `for t in range(start, end)` with the run's
inclusive last index as `end`). -/
def zeroRange (l : List Vec3) (a b : Nat) : List Vec3 :=
  l.mapIdx (fun j v => if a ≤ j ∧ j < b then v3zero else v)

/-- Overwrite the entries `a ≤ j < b` of a channel with `vals` (the
write-back `self.force_plate_raw_forces[i][t] = force_matrix[:, t]` of
lines 433-436, again over `range(start, end)`). -/
def writeRange (l : List Vec3) (a b : Nat) (vals : List Vec3) : List Vec3 :=
  l.mapIdx (fun j v => if a ≤ j ∧ j < b then vals.getD (j - a) v3zero else v)

/-- The matrix block `xs[:, a:b]` as a window of frames. -/
def windowOf (l : List Vec3) (a b : Nat) : List Vec3 := (l.drop a).take (b - a)

/-- Lines 419-436 of `lowpass_filter`: process the non-zero runs of one
plate.  A run `(s, e)` (inclusive `e`) with `e - s < 10` has the frames
`s ≤ t < e` zeroed; otherwise the frames `s ≤ t < e` are overwritten with
the zero-phase filter `filt` applied to the block `[s, e)` of the data as it
was when the matrices were built (the runs are pairwise disjoint and are
each written at most once, so the matrix block the source filters always
still holds the original channel data). -/
def applyRuns (filt : List Vec3 → List Vec3) (orig : PlateData)
    (runs : List (Nat × Nat)) (p : PlateData) : PlateData :=
  runs.foldl (fun q se =>
    if se.2 - se.1 < 10 then
      { q with forces := zeroRange q.forces se.1 se.2,
               cops := zeroRange q.cops se.1 se.2,
               moments := zeroRange q.moments se.1 se.2 }
    else
      { q with forces := writeRange q.forces se.1 se.2 (filt (windowOf orig.forces se.1 se.2)),
               cops := writeRange q.cops se.1 se.2 (filt (windowOf orig.cops se.1 se.2)),
               moments := writeRange q.moments se.1 se.2 (filt (windowOf orig.moments se.1 se.2)) })
    p

/-- Method `TrialSegment.lowpass_filter` (lines 378-445).  `filtPoses` and `filt`
stand for scipy `filtfilt` with the designed Butterworth coefficients (an
opaque external routine); `ts` is `self.parent.timestep`, by which the
`butter` call divides (raising when it is 0).  Returns the updated segment
and the method's boolean result; `none` models a raised exception (division
by zero in the filter design, or a missing `kinematics_poses` /
`marker_fitter_result`). -/
def TrialSegment.lowpass_filter (nrm : Vec3 → ℚ) (filtPoses : NpMatrix → NpMatrix)
    (filt : List Vec3 → List Vec3) (ts : ℚ) (seg : TrialSegment) :
    Option (TrialSegment × Bool) :=
  if ts = 0 then none else
  match seg.kinematics_poses with
  | none => none
  | some poses =>
    let trialLen := poses.ncols
    if trialLen < 10 then some (seg, false) else
    match seg.marker_fitter_result with
    | none => none
    | some _ =>
      let lp := filtPoses poses
      let newPlates := seg.plates.map (fun p =>
        let norms : List ℚ := (List.range trialLen).map (fun t => nrm (p.forces.getD t v3zero))
        applyRuns filt p (nonZeroSegments norms trialLen) p)
      some ({ seg with
                lowpass_poses := some lp
                marker_fitter_result := some lp
                plates := newPlates
                lowpass_force_plates := newPlates }, true)

/-! ### Concrete data used by witnesses and counterexamples -/

/-- A concrete norm used to instantiate `nrm` on test data: the L1 norm,
which is computable on ℚ, is non-negative and definite, and agrees with the
Euclidean norm on vectors with a single nonzero component. -/
def l1norm (v : Vec3) : ℚ := |v.1| + |v.2.1| + |v.2.2|

/-- A vector along the first axis. -/
def axisVec (x : ℚ) : Vec3 := (x, 0, 0)

/-- A marker frame with one well-formed marker observation. -/
def markerFrameOk : MarkerFrame := [("M1", (some 1, some 2, some 3))]

/-- A trial whose single frame has a marker component of magnitude 2e6 (and
no NaN anywhere). -/
def c5trial : Trial :=
  { marker_observations := [[("M1", (some 2000000, some 0, some 0))]]
    plates := []
    timestamps := [0]
    timestep := 1 / 100
    error := false
    manually_scaled_ik := none }

/-- A plate whose force-norm histogram peaks in its top bin: 2 idle frames
and 10 loaded frames, so the tallest bin is number 199. -/
def c7plate : PlateData :=
  { forces := List.replicate 2 v3zero ++ List.replicate 10 (axisVec 1)
    cops := List.replicate 12 v3zero
    moments := List.replicate 12 v3zero
    threshold := 0 }

/-- A 31-frame plate on which autoclipping is not idempotent: an idle
cluster at norm 200 (10 frames), two loaded clusters at norms 1150 and 1195
(10 frames each) that fall into distinct bins of the first histogram but the
same bin of the second, and one frame at norm 20000. -/
def c8plate : PlateData :=
  { forces := List.replicate 10 (axisVec 200) ++ List.replicate 10 (axisVec 1150)
      ++ List.replicate 10 (axisVec 1195) ++ [axisVec 20000]
    cops := List.replicate 10 (axisVec 200) ++ List.replicate 10 (axisVec 1150)
      ++ List.replicate 10 (axisVec 1195) ++ [axisVec 20000]
    moments := List.replicate 31 v3zero
    threshold := 0 }

/-- The first autoclip run on `c8plate`. -/
def c8run1 : PlateData := autoclipPlate l1norm 31 c8plate

/-- The second autoclip run, on the already-clipped `c8run1`. -/
def c8run2 : PlateData := autoclipPlate l1norm 31 c8run1

/-- A 0-frame trial that is not flagged errored. -/
def ztrial : Trial :=
  { marker_observations := []
    plates := []
    timestamps := []
    timestep := 1 / 100
    error := false
    manually_scaled_ik := none }

/-- A well-formed 1-frame trial with one force plate. -/
def w1trial : Trial :=
  { marker_observations := [markerFrameOk]
    plates := [{ forces := [axisVec 5], cops := [v3zero], moments := [v3zero], threshold := 0 }]
    timestamps := [0]
    timestep := 1 / 100
    error := false
    manually_scaled_ik := none }

/-- A 1-row, 12-column pose matrix for segments under low-pass filtering. -/
def posesM : NpMatrix := { nrows := 1, ncols := 12, rows := [List.replicate 12 0] }

/-- A 12-frame trial segment, ready for `lowpass_filter`, holding the given
single plate. -/
def mkSeg12 (p : PlateData) : TrialSegment :=
  { start := 0
    stop := 12
    timestamps := []
    has_markers := true
    has_forces := true
    has_error := false
    error := false
    error_msg := SegErrorMsg.noMsg
    original_marker_observations := List.replicate 12 markerFrameOk
    marker_observations := List.replicate 12 markerFrameOk
    plates := [p]
    manually_scaled_ik_poses := none
    kinematics_status := ProcessingStatus.FINISHED
    kinematics_poses := some posesM
    marker_fitter_result := some posesM
    lowpass_status := ProcessingStatus.NOT_STARTED
    lowpass_poses := none
    lowpass_force_plates := [] }

/-- A plate with one 3-frame contact run (frames 0-2) of norm 100 and zeros
elsewhere, over 12 frames. -/
def c4plate : PlateData :=
  { forces := List.replicate 3 (axisVec 100) ++ List.replicate 9 v3zero
    cops := List.replicate 3 (axisVec 100) ++ List.replicate 9 v3zero
    moments := List.replicate 3 (axisVec 100) ++ List.replicate 9 v3zero
    threshold := 0 }

/-- A 12-frame plate with zero force everywhere but a nonzero
center-of-pressure at frame 5. -/
def c10plate : PlateData :=
  { forces := List.replicate 12 v3zero
    cops := List.replicate 5 v3zero ++ [axisVec 7] ++ List.replicate 6 v3zero
    moments := List.replicate 12 v3zero
    threshold := 0 }

/-- A synthetic `has_forces` series: `p` on-frames, an isolated off run of
`g` frames, then `s` on-frames. -/
def onOffOn (p g s : Nat) : List Bool :=
  List.replicate p true ++ List.replicate g false ++ List.replicate s true

/-- The segments `split_segments` emits on `w1trial`. -/
def w1segs : List TrialSegment := (w1trial.split_segments l1norm 1 3000).getD []

/-- The segment `lowpass_filter` returns on `mkSeg12 c4plate`, with the
identity standing in for both filters. -/
def c4out : TrialSegment :=
  (((mkSeg12 c4plate).lowpass_filter l1norm id id (1 / 100)).getD (mkSeg12 c4plate, false)).1

/-- The segment `lowpass_filter` returns on `mkSeg12 c10plate`, with the
identity standing in for both filters. -/
def c10out : TrialSegment :=
  (((mkSeg12 c10plate).lowpass_filter l1norm id id (1 / 100)).getD (mkSeg12 c10plate, false)).1

/-! ### Proofs -/

section ClaimProofs

attribute [local semireducible] Rat.add Rat.mul Rat.inv Rat.sub

/-- C5 (code bug): a `TrialSegment` whose marker data contains a component
with magnitude > 1e6 (and no NaN) does NOT become errored in its own error
state: line 366 assigns `self.error` instead of `self.has_error`, so
`has_error` stays false while the shadow `error` attribute and the
suspiciously-large-values message are set. -/
theorem C5_large_value_sets_wrong_flag :
    (TrialSegment.init c5trial 0 1).has_error = false ∧
    (TrialSegment.init c5trial 0 1).error = true ∧
    (TrialSegment.init c5trial 0 1).error_msg = SegErrorMsg.suspiciouslyLargeValues := by
  decide

/-- C6 (code bug): with the two timestamps 0 and 1 (n = 2), line 79 derives
`timestep = (last - first) / n = 1/2`, while the documented derivation
`(last - first) / (n - 1)` gives 1; the two disagree. -/
theorem C6_timestep_denominator :
    loadTimestep [0, 1] = 1 / 2 ∧
    ((1 : ℚ) - 0) / ((2 : ℚ) - 1) = 1 ∧
    ¬ ((1 / 2 : ℚ) = 1) := by
  decide

/-- C7: if the tallest bin of the 200-bin force-norm histogram is outside
the lowest quarter of the bin range (index at least 50), autoclip leaves the
plate completely unmodified and its recorded threshold stays 0. -/
theorem C7_autoclip_skip (nrm : Vec3 → ℚ) (trialLen : Nat) (p : PlateData)
    (hthr : p.threshold = 0)
    (hpeak : 50 ≤ npArgmax (npHistogram (p.forces.map nrm) 200).1) :
    autoclipPlate nrm trialLen p = p ∧ (autoclipPlate nrm trialLen p).threshold = 0 := by
  have hcond : ¬ ((npArgmax (npHistogram (p.forces.map nrm) 200).1 : ℚ) < ((200 : Nat) : ℚ) / 4) := by
    have h4 : ((200 : Nat) : ℚ) / 4 = ((50 : Nat) : ℚ) := by norm_num
    rw [h4]
    exact_mod_cast not_lt.mpr hpeak
  have hmain : autoclipPlate nrm trialLen p = p := by
    unfold autoclipPlate
    simp only [if_neg hcond]
  exact ⟨hmain, by rw [hmain, hthr]⟩

set_option maxRecDepth 1000000 in
/-- Witness for C7: `c7plate` has its histogram peak in bin 199, and
autoclip leaves it untouched. -/
theorem C7_autoclip_skip_witness :
    autoclipPlate l1norm 12 c7plate = c7plate ∧
    (autoclipPlate l1norm 12 c7plate).threshold = 0 :=
  C7_autoclip_skip l1norm 12 c7plate (by decide) (by decide)

/-- One autoclip run never changes a frame all three of whose channel values
are already the zero vector: it either leaves the frame alone or assigns the
zero vector again. -/
theorem autoclipPlate_keeps_zero_frame (nrm : Vec3 → ℚ) (trialLen : Nat) (p : PlateData)
    (t : Nat)
    (hf : p.forces[t]? = some v3zero)
    (hc : p.cops[t]? = some v3zero)
    (hm : p.moments[t]? = some v3zero) :
    (autoclipPlate nrm trialLen p).forces[t]? = some v3zero ∧
    (autoclipPlate nrm trialLen p).cops[t]? = some v3zero ∧
    (autoclipPlate nrm trialLen p).moments[t]? = some v3zero := by
  unfold autoclipPlate
  by_cases h1 : ((npArgmax (npHistogram (p.forces.map nrm) 200).1 : ℚ) < ((200 : Nat) : ℚ) / 4)
  · simp only [if_pos h1]
    by_cases h2 : (((200 : Nat) : ℚ) / 2 <
        ((findRightBound (npHistogram (p.forces.map nrm) 200).1 ((trialLen : ℚ) / ((200 : Nat) : ℚ))
          (npArgmax (npHistogram (p.forces.map nrm) 200).1) 200 : Nat) : ℚ))
    · simp only [if_pos h2]
      exact ⟨hf, hc, hm⟩
    · simp only [if_neg h2]
      have hfn : (p.forces.map nrm)[t]? = some (nrm v3zero) := by
        rw [List.getElem?_map, hf, Option.map_some']
      refine ⟨?_, ?_, ?_⟩
      · rw [List.getElem?_map, hf, Option.map_some', ite_self]
      · have hz : ((p.forces.map nrm).zip p.cops)[t]? = some (nrm v3zero, v3zero) :=
          (List.getElem?_zip_eq_some).mpr ⟨hfn, hc⟩
        rw [List.getElem?_map, hz, Option.map_some', ite_self]
      · have hz : ((p.forces.map nrm).zip p.moments)[t]? = some (nrm v3zero, v3zero) :=
          (List.getElem?_zip_eq_some).mpr ⟨hfn, hm⟩
        rw [List.getElem?_map, hz, Option.map_some', ite_self]
  · simp only [if_neg h1]
    exact ⟨hf, hc, hm⟩

/-- C8 amended: re-running autoclip on an already-clipped plate can change
the recorded threshold and can zero further frames, but it never un-zeroes:
every frame the first run left with all three channels at the zero vector is
still exactly zero after the second run. -/
theorem C8_second_run_keeps_zeroed_frames (nrm : Vec3 → ℚ) (trialLen : Nat)
    (p0 : PlateData) (t : Nat)
    (hf : (autoclipPlate nrm trialLen p0).forces[t]? = some v3zero)
    (hc : (autoclipPlate nrm trialLen p0).cops[t]? = some v3zero)
    (hm : (autoclipPlate nrm trialLen p0).moments[t]? = some v3zero) :
    (autoclipPlate nrm trialLen (autoclipPlate nrm trialLen p0)).forces[t]? = some v3zero ∧
    (autoclipPlate nrm trialLen (autoclipPlate nrm trialLen p0)).cops[t]? = some v3zero ∧
    (autoclipPlate nrm trialLen (autoclipPlate nrm trialLen p0)).moments[t]? = some v3zero :=
  autoclipPlate_keeps_zero_frame nrm trialLen (autoclipPlate nrm trialLen p0) t hf hc hm

set_option maxRecDepth 4000000 in
set_option maxHeartbeats 4000000 in
/-- Witness for the amended C8: frame 0 of `c8plate` is zeroed by the first
run and is still zero after the second. -/
theorem C8_second_run_keeps_zeroed_frames_witness :
    (autoclipPlate l1norm 31 (autoclipPlate l1norm 31 c8plate)).forces[0]? = some v3zero ∧
    (autoclipPlate l1norm 31 (autoclipPlate l1norm 31 c8plate)).cops[0]? = some v3zero ∧
    (autoclipPlate l1norm 31 (autoclipPlate l1norm 31 c8plate)).moments[0]? = some v3zero :=
  C8_second_run_keeps_zeroed_frames l1norm 31 c8plate 0 (by decide) (by decide) (by decide)

set_option maxRecDepth 4000000 in
set_option maxHeartbeats 4000000 in
/-- C8 counterexample: the first autoclip run on `c8plate` clips it (every
frame below the recorded threshold is the zero vector), yet the second run
both records a different threshold and changes frames of the force channel,
refuting idempotence. -/
theorem C8_counterexample :
    c8run1.forces.all
      (fun v => !decide (l1norm v < c8run1.threshold) || decide (v = v3zero)) = true ∧
    c8run2.threshold ≠ c8run1.threshold ∧
    c8run2.forces ≠ c8run1.forces := by
  refine ⟨by decide, by decide, by decide⟩

/-- C2 counterexample: with `max_grf_gap_fill_size = 1` and
`timestep = 1/2` the quotient is exactly 2, and an isolated off run of
length exactly 2 IS merged into "on", refuting the claimed strict boundary
(`g = max_grf_gap_fill_size / timestep` not filled). -/
theorem C2_counterexample :
    gapFill 1 (1 / 2) [true, false, false, true] = some [true, true, true, true] ∧
    ¬ ((2 : ℚ) < (1 : ℚ) / (1 / 2)) := by
  refine ⟨by decide, by decide⟩

/-! ### Gap-fill machinery -/

theorem fillTrue_length (l : List Bool) (a b : Nat) : (fillTrue l a b).length = l.length := by
  simp [fillTrue]

theorem getElem?_fillTrue (l : List Bool) (a b j : Nat) :
    (fillTrue l a b)[j]? = (l[j]?).map (fun v => if a ≤ j ∧ j < b then true else v) := by
  simp [fillTrue]

theorem getD_fillTrue (l : List Bool) (a b j : Nat) :
    (fillTrue l a b).getD j false =
      if a ≤ j ∧ j < b ∧ j < l.length then true else l.getD j false := by
  rcases lt_or_ge j l.length with h | h
  · rw [List.getD_eq_getElem?_getD, List.getD_eq_getElem?_getD, getElem?_fillTrue,
      List.getElem?_eq_getElem h]
    by_cases hab : a ≤ j ∧ j < b
    · simp [hab, h]
    · simp only [Option.map_some', Option.getD_some, if_neg hab]
      rw [if_neg]
      intro hcon
      exact hab ⟨hcon.1, hcon.2.1⟩
  · rw [List.getD_eq_getElem?_getD, List.getD_eq_getElem?_getD, getElem?_fillTrue,
      List.getElem?_eq_none (by simpa using h)]
    rw [if_neg]
    · rfl
    · intro hcon
      omega

theorem onOffOn_length (p g s : Nat) : (onOffOn p g s).length = p + g + s := by
  simp [onOffOn]
  omega

theorem getD_onOffOn (p g s j : Nat) :
    (onOffOn p g s).getD j false =
      if j < p then true
      else if j < p + g then false
      else if j < p + g + s then true
      else false := by
  rw [List.getD_eq_getElem?_getD]
  unfold onOffOn
  rw [List.getElem?_append, List.getElem?_append]
  by_cases h1 : j < p
  · have e1 : j < p + g := by omega
    simp [h1, e1, List.length_replicate, List.getElem?_replicate]
  · by_cases h2 : j < p + g
    · have : j - p < g := by omega
      simp [h1, h2, List.length_replicate, List.getElem?_replicate, this]
    · by_cases h3 : j < p + g + s
      · have hg : ¬ (j - p < g) := by omega
        have hs : j - (p + g) < s := by omega
        simp [h1, h2, h3, List.length_replicate, List.getElem?_replicate, hg, hs]
      · have hg : ¬ (j - p < g) := by omega
        have hs : ¬ (j - (p + g) < s) := by omega
        simp [h1, h2, h3, List.length_replicate, List.getElem?_replicate, hg, hs]

theorem gapFillGo_trues (maxGap ts : ℚ) (k : Nat) :
    ∀ (rest i last : Nat) (hf : List Bool),
      (∀ j, i ≤ j → j ≤ i + k → hf.getD j false = true) →
      gapFillGo maxGap ts (k + rest) i last hf = gapFillGo maxGap ts rest (i + k) last hf := by
  induction k with
  | zero =>
    intro rest i last hf _
    simp
  | succ k ih =>
    intro rest i last hf h
    have hi : hf.getD i false = true := h i le_rfl (by omega)
    have hi1 : hf.getD (i + 1) false = true := h (i + 1) (by omega) (by omega)
    rw [List.getD_eq_getElem?_getD] at hi hi1
    have hrw : k + 1 + rest = (k + rest) + 1 := by omega
    rw [hrw]
    have hstep : gapFillGo maxGap ts ((k + rest) + 1) i last hf =
        gapFillGo maxGap ts (k + rest) (i + 1) last hf := by
      simp [gapFillGo, hi, hi1]
    rw [hstep, ih rest (i + 1) last hf (fun j hj1 hj2 => h j (by omega) (by omega))]
    have : i + 1 + k = i + (k + 1) := by omega
    rw [this]

theorem gapFillGo_falses (maxGap ts : ℚ) (k : Nat) :
    ∀ (rest i last : Nat) (hf : List Bool),
      (∀ j, i ≤ j → j ≤ i + k → hf.getD j false = false) →
      gapFillGo maxGap ts (k + rest) i last hf = gapFillGo maxGap ts rest (i + k) last hf := by
  induction k with
  | zero =>
    intro rest i last hf _
    simp
  | succ k ih =>
    intro rest i last hf h
    have hi : hf.getD i false = false := h i le_rfl (by omega)
    have hi1 : hf.getD (i + 1) false = false := h (i + 1) (by omega) (by omega)
    rw [List.getD_eq_getElem?_getD] at hi hi1
    have hrw : k + 1 + rest = (k + rest) + 1 := by omega
    rw [hrw]
    have hstep : gapFillGo maxGap ts ((k + rest) + 1) i last hf =
        gapFillGo maxGap ts (k + rest) (i + 1) last hf := by
      simp [gapFillGo, hi, hi1]
    rw [hstep, ih rest (i + 1) last hf (fun j hj1 hj2 => h j (by omega) (by omega))]
    have : i + 1 + k = i + (k + 1) := by omega
    rw [this]

theorem gapFillGo_step_on_off (maxGap ts : ℚ) (rest i last : Nat) (hf : List Bool)
    (ht : hf.getD i false = true) (hfz : hf.getD (i + 1) false = false) :
    gapFillGo maxGap ts (rest + 1) i last hf = gapFillGo maxGap ts rest (i + 1) (i + 1) hf := by
  rw [List.getD_eq_getElem?_getD] at ht hfz
  simp [gapFillGo, ht, hfz]

theorem gapFillGo_step_off_on (maxGap ts : ℚ) (rest i last : Nat) (hf : List Bool)
    (hts : ts ≠ 0) (hfz : hf.getD i false = false) (ht : hf.getD (i + 1) false = true) :
    gapFillGo maxGap ts (rest + 1) i last hf =
      if ((i : Int) - (last : Int)) < pyInt (maxGap / ts) then
        gapFillGo maxGap ts rest (i + 1) last (fillTrue hf last (i + 1))
      else
        gapFillGo maxGap ts rest (i + 1) last hf := by
  rw [List.getD_eq_getElem?_getD] at ht hfz
  simp [gapFillGo, hfz, ht, hts]

theorem gapFillGo_isSome (maxGap ts : ℚ) (hts : ts ≠ 0) (steps : Nat) :
    ∀ (i last : Nat) (hf : List Bool), (gapFillGo maxGap ts steps i last hf).isSome := by
  induction steps with
  | zero => intro i last hf; simp [gapFillGo]
  | succ steps ih =>
    intro i last hf
    by_cases h0 : hf[i]?.getD false <;> by_cases h1 : hf[i + 1]?.getD false <;>
      simp [gapFillGo, h0, h1, hts, ih] <;> split <;> simp [ih]

theorem gapFillGo_length (maxGap ts : ℚ) (steps : Nat) :
    ∀ (i last : Nat) (hf : List Bool) (r : List Bool × Nat),
      gapFillGo maxGap ts steps i last hf = some r → r.1.length = hf.length := by
  induction steps with
  | zero =>
    intro i last hf r h
    simp [gapFillGo] at h
    rw [← h]
  | succ steps ih =>
    intro i last hf r h
    by_cases h0 : hf[i]?.getD false <;> by_cases h1 : hf[i + 1]?.getD false <;>
      simp [gapFillGo, h0, h1] at h
    · exact ih _ _ _ _ h
    · exact ih _ _ _ _ h
    · rcases eq_or_ne ts 0 with hts | hts
      · simp [hts] at h
      · simp [hts] at h
        split at h
        · have := ih _ _ _ _ h
          rw [this, fillTrue_length]
        · exact ih _ _ _ _ h
    · exact ih _ _ _ _ h

theorem gapFill_length (maxGap ts : ℚ) (hf out : List Bool)
    (h : gapFill maxGap ts hf = some out) : out.length = hf.length := by
  unfold gapFill at h
  rcases hgo : gapFillGo maxGap ts (hf.length - 1) 0 0 hf with _ | r
  · rw [hgo] at h; simp at h
  · rw [hgo] at h
    simp only [Option.bind_eq_bind, Option.some_bind] at h
    have hlen : r.1.length = hf.length := gapFillGo_length maxGap ts _ _ _ _ _ hgo
    rcases hlast : r.1.getLast? with _ | b
    · rw [hlast] at h; simp at h
    · rw [hlast] at h
      by_cases hb : b = true
      · subst hb; simp at h; rw [← h]; exact hlen
      · have hb' : b = false := by simpa using hb
        subst hb'
        simp only [Bool.false_eq_true, if_false] at h
        rcases eq_or_ne ts 0 with hts | hts
        · simp [hts] at h
        · simp only [hts, if_false] at h
          split at h
          · simp at h; rw [← h, fillTrue_length]; exact hlen
          · simp at h; rw [← h]; exact hlen

theorem gapFill_isSome (maxGap ts : ℚ) (hf : List Bool) (hts : ts ≠ 0) (hne : hf ≠ []) :
    (gapFill maxGap ts hf).isSome := by
  unfold gapFill
  rcases hgo : gapFillGo maxGap ts (hf.length - 1) 0 0 hf with _ | r
  · have := gapFillGo_isSome maxGap ts hts (hf.length - 1) 0 0 hf
    rw [hgo] at this; simp at this
  · simp only [Option.bind_eq_bind, Option.some_bind]
    have hlen : r.1.length = hf.length := gapFillGo_length maxGap ts _ _ _ _ _ hgo
    have hne1 : r.1 ≠ [] := by
      intro hcon
      rw [hcon] at hlen
      exact hne (List.eq_nil_of_length_eq_zero hlen.symm)
    rcases hlast : r.1.getLast? with _ | b
    · exact absurd (List.getLast?_eq_none_iff.mp hlast) hne1
    · by_cases hb : b = true
      · subst hb; simp
      · have hb' : b = false := by simpa using hb
        subst hb'
        simp only [Bool.false_eq_true, if_false, hts]
        split <;> simp

theorem getElem?_onOffOn (p g s j : Nat) :
    (onOffOn p g s)[j]? =
      if j < p + g + s then some ((onOffOn p g s).getD j false) else none := by
  rcases lt_or_ge j (p + g + s) with h | h
  · have h' : j < (onOffOn p g s).length := by rw [onOffOn_length]; exact h
    rw [List.getElem?_eq_getElem h', if_pos h, List.getD_eq_getElem?_getD,
      List.getElem?_eq_getElem h', Option.getD_some]
  · rw [List.getElem?_eq_none (by rw [onOffOn_length]; exact h), if_neg (by omega)]

theorem fillTrue_onOffOn (p g s : Nat) :
    fillTrue (onOffOn p g s) p (p + g) = List.replicate (p + g + s) true := by
  apply List.ext_getElem?
  intro j
  rw [getElem?_fillTrue, getElem?_onOffOn, List.getElem?_replicate]
  rcases lt_or_ge j (p + g + s) with h | h
  · rw [if_pos h, if_pos h, Option.map_some']
    congr 1
    by_cases hab : p ≤ j ∧ j < p + g
    · rw [if_pos hab]
    · rw [if_neg hab, getD_onOffOn]
      rcases lt_or_ge j p with h1 | h1
      · rw [if_pos h1]
      · have h2 : ¬ j < p + g := by omega
        have h3 : ¬ j < p := by omega
        rw [if_neg h3, if_neg h2, if_pos h]
  · rw [if_neg (by omega), if_neg (by omega), Option.map_none']

theorem gapFillGo_onOffOn (maxGap ts : ℚ) (hts : ts ≠ 0) (p g s : Nat)
    (hp : 1 ≤ p) (hg : 1 ≤ g) (hs : 1 ≤ s) :
    gapFillGo maxGap ts ((p + g + s) - 1) 0 0 (onOffOn p g s) =
      some (if (g : Int) - 1 < pyInt (maxGap / ts)
            then (List.replicate (p + g + s) true, p)
            else (onOffOn p g s, p)) := by
  have e1 : gapFillGo maxGap ts ((p + g + s) - 1) 0 0 (onOffOn p g s) =
      gapFillGo maxGap ts ((g + s - 1) + 1) (p - 1) 0 (onOffOn p g s) := by
    have hA : (p + g + s) - 1 = (p - 1) + ((g + s - 1) + 1) := by omega
    rw [hA, gapFillGo_trues maxGap ts (p - 1) _ 0 0 _ (fun j hj1 hj2 => by
      rw [getD_onOffOn, if_pos (by omega)])]
    congr 1
    omega
  have e2 : gapFillGo maxGap ts ((g + s - 1) + 1) (p - 1) 0 (onOffOn p g s) =
      gapFillGo maxGap ts ((g - 1) + s) p p (onOffOn p g s) := by
    rw [gapFillGo_step_on_off maxGap ts _ _ _ _
      (by rw [getD_onOffOn, if_pos (by omega)])
      (by rw [getD_onOffOn, if_neg (by omega), if_pos (by omega)])]
    have : p - 1 + 1 = p := by omega
    rw [this]
    congr 1
    omega
  have e3 : gapFillGo maxGap ts ((g - 1) + s) p p (onOffOn p g s) =
      gapFillGo maxGap ts ((s - 1) + 1) (p + g - 1) p (onOffOn p g s) := by
    rw [gapFillGo_falses maxGap ts (g - 1) s p p _ (fun j hj1 hj2 => by
      rw [getD_onOffOn, if_neg (by omega), if_pos (by omega)])]
    have : s = (s - 1) + 1 := by omega
    rw [← this]
    congr 1
    omega
  have hcond : (((p + g - 1 : Nat) : Int) - (p : Int) < pyInt (maxGap / ts)) ↔
      ((g : Int) - 1 < pyInt (maxGap / ts)) := by
    constructor <;> intro h <;> omega
  have e4 : gapFillGo maxGap ts ((s - 1) + 1) (p + g - 1) p (onOffOn p g s) =
      if (g : Int) - 1 < pyInt (maxGap / ts) then
        gapFillGo maxGap ts (s - 1) (p + g - 1 + 1) p (fillTrue (onOffOn p g s) p (p + g - 1 + 1))
      else
        gapFillGo maxGap ts (s - 1) (p + g - 1 + 1) p (onOffOn p g s) := by
    rw [gapFillGo_step_off_on maxGap ts _ _ _ _ hts
      (by rw [getD_onOffOn, if_neg (by omega), if_pos (by omega)])
      (by
        have : p + g - 1 + 1 = p + g := by omega
        rw [this, getD_onOffOn, if_neg (by omega), if_neg (by omega), if_pos (by omega)])]
    by_cases hcase : (g : Int) - 1 < pyInt (maxGap / ts)
    · rw [if_pos (hcond.mpr hcase), if_pos hcase]
    · rw [if_neg (fun hcon => hcase (hcond.mp hcon)), if_neg hcase]
  have epg : p + g - 1 + 1 = p + g := by omega
  have e5 : gapFillGo maxGap ts (s - 1) (p + g) p (fillTrue (onOffOn p g s) p (p + g)) =
      some (List.replicate (p + g + s) true, p) := by
    rw [fillTrue_onOffOn]
    have hA : s - 1 = (s - 1) + 0 := by omega
    rw [hA, gapFillGo_trues maxGap ts (s - 1) 0 (p + g) p _ (fun j hj1 hj2 => by
      rw [List.getD_eq_getElem?_getD, List.getElem?_replicate, if_pos (by omega)]
      rfl)]
    simp [gapFillGo]
  have e6 : gapFillGo maxGap ts (s - 1) (p + g) p (onOffOn p g s) =
      some (onOffOn p g s, p) := by
    have hA : s - 1 = (s - 1) + 0 := by omega
    rw [hA, gapFillGo_trues maxGap ts (s - 1) 0 (p + g) p _ (fun j hj1 hj2 => by
      rw [getD_onOffOn, if_neg (by omega), if_neg (by omega), if_pos (by omega)])]
    simp [gapFillGo]
  rw [e1, e2, e3, e4]
  by_cases hcase : (g : Int) - 1 < pyInt (maxGap / ts)
  · rw [if_pos hcase, epg, e5, if_pos hcase]
  · rw [if_neg hcase, epg, e6, if_neg hcase]

/-- C2 amended: an isolated off run of `g` frames surrounded by on runs is
merged into "on" if and only if `g - 1 < int(max_grf_gap_fill_size /
timestep)` - equivalently, for positive parameters, iff
`g ≤ floor(max_grf_gap_fill_size / timestep)`.  When the quotient is not an
integer this agrees with the specified strict bound `g <
max_grf_gap_fill_size / timestep`, but at an integral quotient the boundary
case `g = max_grf_gap_fill_size / timestep` IS filled. -/
theorem C2_gap_fill_amended (maxGap ts : ℚ) (hts : ts ≠ 0) (p g s : Nat)
    (hp : 1 ≤ p) (hg : 1 ≤ g) (hs : 1 ≤ s) :
    gapFill maxGap ts (onOffOn p g s) =
      some (if (g : Int) - 1 < pyInt (maxGap / ts)
            then List.replicate (p + g + s) true
            else onOffOn p g s) := by
  unfold gapFill
  rw [onOffOn_length, gapFillGo_onOffOn maxGap ts hts p g s hp hg hs]
  simp only [Option.bind_eq_bind, Option.some_bind]
  by_cases hcase : (g : Int) - 1 < pyInt (maxGap / ts)
  · rw [if_pos hcase, if_pos hcase]
    have hl : (List.replicate (p + g + s) true).getLast? = some true := by
      rw [List.getLast?_eq_getElem?, List.length_replicate, List.getElem?_replicate,
        if_pos (by omega)]
    simp only [hl, if_pos]
  · rw [if_neg hcase, if_neg hcase]
    have hl : (onOffOn p g s).getLast? = some true := by
      rw [List.getLast?_eq_getElem?, onOffOn_length, getElem?_onOffOn,
        if_pos (by omega), getD_onOffOn, if_neg (by omega), if_neg (by omega),
        if_pos (by omega)]
    simp only [hl, if_pos]

/-- Witness for the amended C2: a 1-frame off run between single on frames,
with quotient exactly 2, is filled. -/
theorem C2_gap_fill_amended_witness :
    gapFill 1 (1 / 2) (onOffOn 1 1 1) =
      some (if (1 : Int) - 1 < pyInt (1 / (1 / 2))
            then List.replicate (1 + 1 + 1) true
            else onOffOn 1 1 1) :=
  C2_gap_fill_amended 1 (1 / 2) (by norm_num) 1 1 1 le_rfl le_rfl le_rfl

/-! ### Machinery for split_segments -/

theorem totalForces_foldl_some (nrm : Vec3 → ℚ) (n : Nat) (plates : List PlateData) :
    ∀ acc : List ℚ, acc.length = n →
    (∀ pl ∈ plates, pl.forces.length = n ∧ pl.moments.length = n) →
    ∃ tf : List ℚ,
      plates.foldl (fun acc' p =>
        match acc' with
        | none => none
        | some tf =>
          if p.forces.length = n ∧ p.moments.length = n then
            some ((tf.zip (p.forces.zip p.moments)).map
              (fun x => x.1 + nrm x.2.1 + nrm x.2.2))
          else none) (some acc) = some tf ∧ tf.length = n := by
  induction plates with
  | nil =>
    intro acc hl _
    exact ⟨acc, rfl, hl⟩
  | cons p rest ih =>
    intro acc hl h
    have hp := h p (List.mem_cons_self p rest)
    simp only [List.foldl_cons, if_pos hp]
    apply ih
    · rw [List.length_map, List.length_zip, List.length_zip, hl, hp.1, hp.2]
      simp
    · intro pl hpl
      exact h pl (List.mem_cons_of_mem p hpl)

theorem totalForces_some (nrm : Vec3 → ℚ) (n : Nat) (plates : List PlateData)
    (h : ∀ pl ∈ plates, pl.forces.length = n ∧ pl.moments.length = n) :
    ∃ tf : List ℚ, totalForces nrm n plates = some tf ∧ tf.length = n := by
  unfold totalForces
  exact totalForces_foldl_some nrm n plates (List.replicate n 0) (by simp) h

theorem gapFill_singleton (maxGap ts : ℚ) (b : Bool) (hts : ts ≠ 0) :
    ∃ c : Bool, gapFill maxGap ts [b] = some [c] := by
  have hsome := gapFill_isSome maxGap ts [b] hts (by simp)
  obtain ⟨out, hout⟩ := Option.isSome_iff_exists.mp hsome
  have hlen : out.length = 1 := by
    have := gapFill_length maxGap ts [b] out hout
    simpa using this
  obtain ⟨c, rfl⟩ := List.length_eq_one.mp hlen
  exact ⟨c, hout⟩

theorem boolTransitions_of_length_le_one (l : List Bool) (h : l.length ≤ 1) :
    boolTransitions l = [] := by
  match l with
  | [] => rfl
  | [a] => rfl
  | a :: b :: t => simp at h

/-- C9 counterexample: on a 0-frame trial that is not flagged errored,
`split_segments` raises (the trailing gap-fill check reads
`has_forces[-1]` on an empty list, an IndexError) instead of emitting a
degenerate segmentation. -/
theorem C9_counterexample :
    ztrial.split_segments l1norm 1 3000 = none := by
  decide

/-- C9 amended: on an unerrored 1-frame trial (with a nonzero timestep,
well-formed plates and a positive length cap) `split_segments` terminates
and emits the single boundary pair `[0, 1]`, i.e. one segment; but on an
unerrored 0-frame trial it raises an IndexError at the trailing gap-fill
check rather than emitting a degenerate segmentation (in deployment a
0-frame trial is flagged errored at load time and skips segmentation). -/
theorem C9_one_frame_amended (nrm : Vec3 → ℚ) (tr : Trial) (maxGap : ℚ) (maxSeg : Nat)
    (herr : tr.error = false) (hN : tr.marker_observations.length = 1)
    (hts : tr.timestep ≠ 0)
    (hpl : ∀ pl ∈ tr.plates, pl.forces.length = 1 ∧ pl.moments.length = 1)
    (hms : 1 ≤ maxSeg) :
    ∃ seg : TrialSegment, tr.split_segments nrm maxGap maxSeg = some [seg] ∧
      seg.start = 0 ∧ seg.stop = 1 := by
  unfold Trial.split_segments
  rw [hN]
  simp only [herr, Bool.false_eq_true, if_false]
  obtain ⟨tf, htf, htflen⟩ := totalForces_some nrm 1 tr.plates hpl
  rw [htf]
  simp only [Option.bind_eq_bind, Option.some_bind]
  obtain ⟨x, rfl⟩ := List.length_eq_one.mp htflen
  obtain ⟨c, hgf⟩ := gapFill_singleton maxGap tr.timestep (decide ((1 : ℚ) / 1000 < x)) hts
  simp only [List.map_cons, List.map_nil]
  rw [hgf]
  simp only [Option.some_bind]
  have hm1 : boolTransitions (tr.marker_observations.map (fun obs => decide (0 < obs.length))) = [] := by
    apply boolTransitions_of_length_le_one
    simp [hN]
  have hc1 : boolTransitions [c] = [] := boolTransitions_of_length_le_one [c] (by simp)
  rw [hm1, hc1]
  have hsd : sortedDedup ([0, 1] ++ [] ++ []) = [0, 1] := by decide
  rw [hsd]
  have hlsp : lengthSplitPoints [0, 1] maxSeg = some [] := by
    unfold lengthSplitPoints consecPairs
    simp only [List.zip, List.tail, List.zipWith, List.foldl_cons, List.foldl_nil]
    rw [if_neg (by omega)]
  rw [hlsp]
  simp only [Option.some_bind]
  have hsd2 : sortedDedup ([0, 1] ++ []) = [0, 1] := by decide
  rw [hsd2]
  refine ⟨_, rfl, rfl, rfl⟩

theorem sortedDedup_sorted (l : List Nat) : (sortedDedup l).Sorted (· ≤ ·) :=
  List.sorted_insertionSort _ _

theorem sortedDedup_nodup (l : List Nat) : (sortedDedup l).Nodup :=
  ((List.perm_insertionSort _ _).nodup_iff).mpr (List.nodup_dedup l)

theorem mem_sortedDedup (l : List Nat) (a : Nat) : a ∈ sortedDedup l ↔ a ∈ l := by
  unfold sortedDedup
  rw [(List.perm_insertionSort _ _).mem_iff, List.mem_dedup]

theorem sortedDedup_strictSorted (l : List Nat) : (sortedDedup l).Sorted (· < ·) := by
  have h1 := sortedDedup_sorted l
  have h2 := sortedDedup_nodup l
  exact (List.Pairwise.and h1 h2).imp (fun h => lt_of_le_of_ne h.1 h.2)

theorem length_consecPairs (l : List Nat) : (consecPairs l).length = l.length - 1 := by
  unfold consecPairs
  rw [List.length_zip, List.length_tail]
  omega

theorem getElem_consecPairs (l : List Nat) (i : Nat) (h : i < (consecPairs l).length) :
    (consecPairs l)[i] =
      (l.get ⟨i, by rw [length_consecPairs] at h; omega⟩,
       l.get ⟨i + 1, by rw [length_consecPairs] at h; omega⟩) := by
  simp only [List.get_eq_getElem]
  unfold consecPairs
  rw [List.getElem_zip]
  congr 1
  rw [List.getElem_tail]

/-- Adjacent-pair membership as indices. -/
theorem mem_consecPairs (l : List Nat) (pq : Nat × Nat) :
    pq ∈ consecPairs l ↔
      ∃ i, ∃ h : i + 1 < l.length,
        pq.1 = l.get ⟨i, by omega⟩ ∧ pq.2 = l.get ⟨i + 1, h⟩ := by
  simp only [List.get_eq_getElem]
  constructor
  · intro h
    obtain ⟨i, hi, hget⟩ := List.mem_iff_getElem.mp h
    rw [getElem_consecPairs l i hi] at hget
    refine ⟨i, by rw [length_consecPairs] at hi; omega, ?_, ?_⟩
    · rw [← hget]
      simp [List.get_eq_getElem]
    · rw [← hget]
      simp [List.get_eq_getElem]
  · rintro ⟨i, h, h1, h2⟩
    apply List.mem_iff_getElem.mpr
    refine ⟨i, by rw [length_consecPairs]; omega, ?_⟩
    rw [getElem_consecPairs l i (by rw [length_consecPairs]; omega)]
    cases pq
    simp only [Prod.mk.injEq]
    exact ⟨h1.symm, h2.symm⟩

/-- In a strictly sorted list, the gap of every adjacent pair is at most `D`
as soon as any wider pair of members has a member strictly between them. -/
theorem consecPairs_gap_le (l : List Nat) (hs : l.Sorted (· < ·)) (D : Nat)
    (hdense : ∀ a ∈ l, ∀ b ∈ l, a < b → D < b - a → ∃ c ∈ l, a < c ∧ c < b) :
    ∀ pq ∈ consecPairs l, pq.2 - pq.1 ≤ D := by
  intro pq hpq
  obtain ⟨i, hi, h1, h2⟩ := (mem_consecPairs l pq).mp hpq
  simp only [List.get_eq_getElem] at h1 h2
  by_contra hcon
  have hidx := List.pairwise_iff_getElem.mp hs
  have hlt : pq.1 < pq.2 := by
    rw [h1, h2]
    exact hidx i (i + 1) (by omega) (by omega) (by omega)
  obtain ⟨c, hcmem, hc1, hc2⟩ :=
    hdense pq.1 (by rw [h1]; exact List.getElem_mem _) pq.2 (by rw [h2]; exact List.getElem_mem _)
      hlt (by omega)
  obtain ⟨j, hj, hcj⟩ := List.mem_iff_getElem.mp hcmem
  have hij : i < j := by
    by_contra hle
    have : c ≤ pq.1 := by
      rcases Nat.lt_or_ge j i with hji | hji
      · rw [h1, ← hcj]
        exact le_of_lt (hidx j i hj (by omega) hji)
      · have : j = i := by omega
        subst this
        rw [h1, ← hcj]
    omega
  have hji1 : j < i + 1 := by
    by_contra hle
    have : pq.2 ≤ c := by
      rcases Nat.lt_or_ge (i + 1) j with hji | hji
      · rw [h2, ← hcj]
        exact le_of_lt (hidx (i + 1) j (by omega) hj hji)
      · have : j = i + 1 := by omega
        subst this
        rw [h2, ← hcj]
    omega
  omega

/-- Every member bracketed by members of a strictly sorted list lies in one
of its adjacent pairs. -/
theorem consecPairs_cover (l : List Nat) (hs : l.Sorted (· < ·)) (x : Nat)
    (hlb : ∃ u ∈ l, u ≤ x) (hub : ∃ v ∈ l, x < v) :
    ∃ pq ∈ consecPairs l, pq.1 ≤ x ∧ x < pq.2 := by
  induction l with
  | nil =>
    obtain ⟨u, hu, _⟩ := hlb
    exact absurd hu (List.not_mem_nil u)
  | cons a rest ih =>
    match rest with
    | [] =>
      obtain ⟨u, hu, hux⟩ := hlb
      obtain ⟨v, hv, hxv⟩ := hub
      simp only [List.mem_singleton] at hu hv
      omega
    | b :: t =>
      rcases Nat.lt_or_ge x b with hxb | hbx
      · refine ⟨(a, b), ?_, ?_, hxb⟩
        · show (a, b) ∈ (a :: b :: t).zip (b :: t)
          exact List.mem_cons_self _ _
        · obtain ⟨u, hu, hux⟩ := hlb
          rcases List.mem_cons.mp hu with h | h
          · omega
          · have : a < u := (List.sorted_cons.mp hs).1 u h
            omega
      · have hs' : (b :: t).Sorted (· < ·) := (List.sorted_cons.mp hs).2
        have hub' : ∃ v ∈ b :: t, x < v := by
          obtain ⟨v, hv, hxv⟩ := hub
          rcases List.mem_cons.mp hv with h | h
          · exfalso
            have hab : a < b := (List.sorted_cons.mp hs).1 b (List.mem_cons_self _ _)
            omega
          · exact ⟨v, h, hxv⟩
        obtain ⟨pq, hpq, h1, h2⟩ := ih hs' ⟨b, List.mem_cons_self _ _, hbx⟩ hub'
        refine ⟨pq, ?_, h1, h2⟩
        show pq ∈ (a :: b :: t).zip (b :: t)
        exact List.mem_cons_of_mem _ hpq

theorem lspFold_none (ms : Nat) : ∀ (l : List (Nat × Nat)),
    (l.foldl (fun acc pq =>
      match acc with
      | none => none
      | some pts =>
        if ms < pq.2 - pq.1 then
          if ms = 0 then none
          else some (pts ++ lengthSplitsFor pq.1 (pq.2 - pq.1) ms)
        else some pts) (none : Option (List Nat))) = none := by
  intro l
  induction l with
  | nil => rfl
  | cons pq l ih => simpa using ih

theorem lspFold_inv (ms : Nat) : ∀ (l : List (Nat × Nat)) (acc out : List Nat),
    (l.foldl (fun acc' pq =>
      match acc' with
      | none => none
      | some pts =>
        if ms < pq.2 - pq.1 then
          if ms = 0 then none
          else some (pts ++ lengthSplitsFor pq.1 (pq.2 - pq.1) ms)
        else some pts) (some acc)) = some out →
    (∀ x ∈ acc, x ∈ out) ∧
    (∀ pq ∈ l, ms < pq.2 - pq.1 → ¬ ms = 0 ∧
        ∀ x ∈ lengthSplitsFor pq.1 (pq.2 - pq.1) ms, x ∈ out) ∧
    (∀ x ∈ out, x ∈ acc ∨
        ∃ pq ∈ l, ms < pq.2 - pq.1 ∧ x ∈ lengthSplitsFor pq.1 (pq.2 - pq.1) ms) := by
  intro l
  induction l with
  | nil =>
    intro acc out h
    simp only [List.foldl_nil, Option.some_inj] at h
    subst h
    exact ⟨fun x hx => hx, fun pq hpq => absurd hpq (List.not_mem_nil pq),
      fun x hx => Or.inl hx⟩
  | cons pq l ih =>
    intro acc out h
    simp only [List.foldl_cons] at h
    by_cases hgap : ms < pq.2 - pq.1
    · by_cases hz : ms = 0
      · rw [if_pos hgap, if_pos hz] at h
        rw [lspFold_none] at h
        exact absurd h (by simp)
      · rw [if_pos hgap, if_neg hz] at h
        obtain ⟨h1, h2, h3⟩ := ih (acc ++ lengthSplitsFor pq.1 (pq.2 - pq.1) ms) out h
        refine ⟨?_, ?_, ?_⟩
        · intro x hx
          exact h1 x (List.mem_append_left _ hx)
        · intro pq' hpq' hgap'
          rcases List.mem_cons.mp hpq' with heq | hmem
          · subst heq
            exact ⟨hz, fun x hx => h1 x (List.mem_append_right _ hx)⟩
          · exact h2 pq' hmem hgap'
        · intro x hx
          rcases h3 x hx with hacc | ⟨pq', hpq', hg, hmem⟩
          · rcases List.mem_append.mp hacc with h' | h'
            · exact Or.inl h'
            · exact Or.inr ⟨pq, List.mem_cons_self _ _, hgap, h'⟩
          · exact Or.inr ⟨pq', List.mem_cons_of_mem _ hpq', hg, hmem⟩
    · rw [if_neg hgap] at h
      obtain ⟨h1, h2, h3⟩ := ih acc out h
      refine ⟨h1, ?_, ?_⟩
      · intro pq' hpq' hgap'
        rcases List.mem_cons.mp hpq' with heq | hmem
        · subst heq
          exact absurd hgap' hgap
        · exact h2 pq' hmem hgap'
      · intro x hx
        rcases h3 x hx with hacc | ⟨pq', hpq', hg, hmem⟩
        · exact Or.inl hacc
        · exact Or.inr ⟨pq', List.mem_cons_of_mem _ hpq', hg, hmem⟩

theorem lspFold_some (ms : Nat) (hms : 1 ≤ ms) : ∀ (l : List (Nat × Nat)) (acc : List Nat),
    ∃ out, (l.foldl (fun acc' pq =>
      match acc' with
      | none => none
      | some pts =>
        if ms < pq.2 - pq.1 then
          if ms = 0 then none
          else some (pts ++ lengthSplitsFor pq.1 (pq.2 - pq.1) ms)
        else some pts) (some acc)) = some out := by
  intro l
  induction l with
  | nil => exact fun acc => ⟨acc, rfl⟩
  | cons pq l ih =>
    intro acc
    simp only [List.foldl_cons]
    by_cases hgap : ms < pq.2 - pq.1
    · rw [if_pos hgap, if_neg (by omega)]
      exact ih _
    · rw [if_neg hgap]
      exact ih _

theorem lengthSplitPoints_some (sp : List Nat) (ms : Nat) (hms : 1 ≤ ms) :
    ∃ lsp, lengthSplitPoints sp ms = some lsp := by
  unfold lengthSplitPoints
  exact lspFold_some ms hms (consecPairs sp) []

theorem lengthSplitPoints_inv (sp : List Nat) (ms : Nat) (lsp : List Nat)
    (h : lengthSplitPoints sp ms = some lsp) :
    (∀ pq ∈ consecPairs sp, ms < pq.2 - pq.1 → ¬ ms = 0 ∧
        ∀ x ∈ lengthSplitsFor pq.1 (pq.2 - pq.1) ms, x ∈ lsp) ∧
    (∀ x ∈ lsp, ∃ pq ∈ consecPairs sp,
        ms < pq.2 - pq.1 ∧ x ∈ lengthSplitsFor pq.1 (pq.2 - pq.1) ms) := by
  unfold lengthSplitPoints at h
  obtain ⟨h1, h2, h3⟩ := lspFold_inv ms (consecPairs sp) [] lsp h
  refine ⟨h2, ?_⟩
  intro x hx
  rcases h3 x hx with hemp | hrest
  · exact absurd hemp (List.not_mem_nil x)
  · exact hrest

theorem mem_lengthSplitsFor (p gap ms x : Nat) :
    x ∈ lengthSplitsFor p gap ms ↔ ∃ k, k < (gap - 1) / ms ∧ p + ms * (k + 1) = x := by
  simp [lengthSplitsFor, List.mem_map, List.mem_range]

theorem lengthSplitsFor_bounds (p gap ms x : Nat) (hms : 1 ≤ ms)
    (hx : x ∈ lengthSplitsFor p gap ms) : p < x ∧ x ≤ p + (gap - 1) := by
  obtain ⟨k, hk, hkx⟩ := (mem_lengthSplitsFor p gap ms x).mp hx
  have hle : (k + 1) * ms ≤ gap - 1 := (Nat.le_div_iff_mul_le (by omega)).mp (by omega)
  constructor
  · have : 1 ≤ ms * (k + 1) := Nat.one_le_iff_ne_zero.mpr (by positivity)
    omega
  · have : ms * (k + 1) = (k + 1) * ms := Nat.mul_comm _ _
    omega

theorem consecPairs_lt (l : List Nat) (hs : l.Sorted (· < ·)) :
    ∀ pq ∈ consecPairs l, pq.1 < pq.2 := by
  intro pq hpq
  obtain ⟨i, hi, h1, h2⟩ := (mem_consecPairs l pq).mp hpq
  simp only [List.get_eq_getElem] at h1 h2
  rw [h1, h2]
  exact List.pairwise_iff_getElem.mp hs i (i + 1) (by omega) (by omega) (by omega)

theorem consecPairs_mem_elems (l : List Nat) (pq : Nat × Nat) (h : pq ∈ consecPairs l) :
    pq.1 ∈ l ∧ pq.2 ∈ l := by
  obtain ⟨i, hi, h1, h2⟩ := (mem_consecPairs l pq).mp h
  simp only [List.get_eq_getElem] at h1 h2
  exact ⟨h1 ▸ List.getElem_mem _, h2 ▸ List.getElem_mem _⟩

/-- The length-cap pass works: after inserting the extra split points of
`lengthSplitPoints` and re-sorting, no adjacent gap exceeds the cap. -/
theorem final_gap_le (sp lsp : List Nat) (ms : Nat)
    (hs : sp.Sorted (· < ·))
    (hlsp : lengthSplitPoints sp ms = some lsp) :
    ∀ pq ∈ consecPairs (sortedDedup (sp ++ lsp)), pq.2 - pq.1 ≤ ms := by
  apply consecPairs_gap_le _ (sortedDedup_strictSorted _) ms
  intro a ha b hb hab hgap
  rw [mem_sortedDedup, List.mem_append] at ha hb
  have hinv := lengthSplitPoints_inv sp ms lsp hlsp
  -- bracket `a` by members of `sp`
  have hlb : ∃ u ∈ sp, u ≤ a := by
    rcases ha with h | h
    · exact ⟨a, h, le_rfl⟩
    · obtain ⟨pq0, hpq0, _, hmem⟩ := hinv.2 a h
      have hms1 : 1 ≤ ms := by
        rcases Nat.eq_zero_or_pos ms with h0 | h0
        · exact absurd h0 ((hinv.1 pq0 hpq0 (by omega)).1)
        · exact h0
      have := lengthSplitsFor_bounds pq0.1 (pq0.2 - pq0.1) ms a hms1 hmem
      exact ⟨pq0.1, (consecPairs_mem_elems sp pq0 hpq0).1, by omega⟩
  have hub : ∃ v ∈ sp, a < v := by
    rcases hb with h | h
    · exact ⟨b, h, hab⟩
    · obtain ⟨pq1, hpq1, hg1, hmem⟩ := hinv.2 b h
      have hms1 : 1 ≤ ms := by
        rcases Nat.eq_zero_or_pos ms with h0 | h0
        · exact absurd h0 ((hinv.1 pq1 hpq1 hg1).1)
        · exact h0
      have hbd := lengthSplitsFor_bounds pq1.1 (pq1.2 - pq1.1) ms b hms1 hmem
      have hlt1 := consecPairs_lt sp hs pq1 hpq1
      exact ⟨pq1.2, (consecPairs_mem_elems sp pq1 hpq1).2, by omega⟩
  obtain ⟨PQ, hPQ, hP1, hP2⟩ := consecPairs_cover sp hs a hlb hub
  by_cases hbq : b ≤ PQ.2
  · have hgapPQ : ms < PQ.2 - PQ.1 := by omega
    obtain ⟨hz, hsub⟩ := hinv.1 PQ hPQ hgapPQ
    have hms1 : 1 ≤ ms := by omega
    have hdiv := Nat.div_add_mod (a - PQ.1) ms
    have hmod : (a - PQ.1) % ms < ms := Nat.mod_lt _ (by omega)
    have hmul : ms * ((a - PQ.1) / ms + 1) = ms * ((a - PQ.1) / ms) + ms := by ring
    have hk : (a - PQ.1) / ms < (PQ.2 - PQ.1 - 1) / ms := by
      have h1 : ((a - PQ.1) / ms + 1) ≤ (PQ.2 - PQ.1 - 1) / ms ↔
          ((a - PQ.1) / ms + 1) * ms ≤ PQ.2 - PQ.1 - 1 :=
        Nat.le_div_iff_mul_le (by omega)
      have h2 : ((a - PQ.1) / ms + 1) * ms = ms * ((a - PQ.1) / ms) + ms := by ring
      rw [h2] at h1
      have h3 : ms * ((a - PQ.1) / ms) + ms ≤ PQ.2 - PQ.1 - 1 := by
        generalize hM : ms * ((a - PQ.1) / ms) = M at hdiv
        generalize hR : (a - PQ.1) % ms = R at hdiv hmod
        omega
      omega
    refine ⟨PQ.1 + ms * ((a - PQ.1) / ms + 1), ?_, ?_, ?_⟩
    · rw [mem_sortedDedup, List.mem_append]
      exact Or.inr (hsub _ ((mem_lengthSplitsFor _ _ _ _).mpr ⟨(a - PQ.1) / ms, hk, rfl⟩))
    · rw [hmul]
      generalize hM : ms * ((a - PQ.1) / ms) = M at hdiv
      generalize hR : (a - PQ.1) % ms = R at hdiv hmod
      omega
    · rw [hmul]
      generalize hM : ms * ((a - PQ.1) / ms) = M at hdiv
      generalize hR : (a - PQ.1) % ms = R at hdiv hmod
      omega
  · exact ⟨PQ.2, by
      rw [mem_sortedDedup, List.mem_append]
      exact Or.inl (consecPairs_mem_elems sp PQ hPQ).2, by omega, by omega⟩

/-- Inversion of the monadic pipeline of `split_segments` on an unerrored
trial. -/
theorem split_segments_inv (nrm : Vec3 → ℚ) (tr : Trial) (mg : ℚ) (ms : Nat)
    (segs : List TrialSegment) (herr : tr.error = false)
    (h : tr.split_segments nrm mg ms = some segs) :
    ∃ tf hf lsp,
      totalForces nrm tr.marker_observations.length tr.plates = some tf ∧
      gapFill mg tr.timestep (tf.map (fun f => decide ((1 : ℚ) / 1000 < f))) = some hf ∧
      lengthSplitPoints (sortedDedup ([0, tr.marker_observations.length] ++
        boolTransitions (tr.marker_observations.map (fun obs => decide (0 < obs.length))) ++
        boolTransitions hf)) ms = some lsp ∧
      segs = (consecPairs (sortedDedup (sortedDedup ([0, tr.marker_observations.length] ++
        boolTransitions (tr.marker_observations.map (fun obs => decide (0 < obs.length))) ++
        boolTransitions hf) ++ lsp))).map (fun ab =>
        { TrialSegment.init tr ab.1 ab.2 with
            has_markers := (tr.marker_observations.map
              (fun obs => decide (0 < obs.length))).getD ab.1 false,
            has_forces := ((hf.drop ab.1).take (ab.2 - ab.1)).any id }) := by
  unfold Trial.split_segments at h
  simp only [herr, Bool.false_eq_true, if_false, Option.bind_eq_bind] at h
  obtain ⟨tf, htf, h⟩ := Option.bind_eq_some.mp h
  obtain ⟨hf, hhf, h⟩ := Option.bind_eq_some.mp h
  obtain ⟨lsp, hlsp, h⟩ := Option.bind_eq_some.mp h
  exact ⟨tf, hf, lsp, htf, hhf, hlsp, (Option.some_inj.mp h).symm⟩

theorem consecPairs_pairwise (l : List Nat) (hs : l.Sorted (· < ·)) :
    (consecPairs l).Pairwise (fun p q => p.2 ≤ q.1) := by
  rw [List.pairwise_iff_getElem]
  intro i j hi hj hij
  rw [getElem_consecPairs l i hi, getElem_consecPairs l j hj]
  rw [length_consecPairs] at hi hj
  rcases Nat.eq_or_lt_of_le (Nat.succ_le_of_lt hij) with heq | hlt
  · subst heq
    exact le_rfl
  · exact le_of_lt (List.pairwise_iff_getElem.mp hs (i + 1) j (by omega) (by omega) hlt)

theorem consecPairs_chain (l : List Nat) :
    (consecPairs l).Chain' (fun p q => p.2 = q.1) := by
  induction l with
  | nil => simp [consecPairs]
  | cons a rest ih =>
    match rest with
    | [] => simp [consecPairs]
    | b :: t =>
      have hcons : consecPairs (a :: b :: t) = (a, b) :: consecPairs (b :: t) := rfl
      rw [hcons]
      apply List.Chain'.cons'
      · exact ih
      · intro y hy
        match t with
        | [] => simp [consecPairs] at hy
        | c :: t' =>
          have : consecPairs (b :: c :: t') = (b, c) :: consecPairs (c :: t') := rfl
          rw [this] at hy
          simp only [List.head?_cons, Option.mem_def, Option.some_inj] at hy
          rw [← hy]

theorem split_seg_start (tr : Trial) (a b : Nat) (hm hfo : Bool) :
    ({ TrialSegment.init tr a b with has_markers := hm, has_forces := hfo } :
      TrialSegment).start = a := rfl

theorem split_seg_stop (tr : Trial) (a b : Nat) (hm hfo : Bool) :
    ({ TrialSegment.init tr a b with has_markers := hm, has_forces := hfo } :
      TrialSegment).stop = b := rfl

/-- C3: every segment emitted by `split_segments` covers at most
`max_segment_frames` frames. -/
theorem C3_length_cap (nrm : Vec3 → ℚ) (tr : Trial) (mg : ℚ) (ms : Nat)
    (segs : List TrialSegment) (herr : tr.error = false)
    (hres : tr.split_segments nrm mg ms = some segs) :
    ∀ seg ∈ segs, seg.stop - seg.start ≤ ms := by
  obtain ⟨tf, hf, lsp, htf, hhf, hlsp, hsegs⟩ := split_segments_inv nrm tr mg ms segs herr hres
  subst hsegs
  intro seg hseg
  obtain ⟨ab, hab, rfl⟩ := List.mem_map.mp hseg
  have hgap := final_gap_le _ lsp ms (sortedDedup_strictSorted _) hlsp ab hab
  rw [split_seg_start, split_seg_stop]
  exact hgap

/-- Witness for C3 on the concrete trial `w1trial`. -/
theorem C3_length_cap_witness :
    w1trial.split_segments l1norm 1 3000 = some w1segs ∧
    w1segs.all (fun seg => decide (seg.stop - seg.start ≤ 3000)) = true := by
  have hres : w1trial.split_segments l1norm 1 3000 = some w1segs := by decide
  refine ⟨hres, ?_⟩
  rw [List.all_eq_true]
  intro seg hseg
  simpa using C3_length_cap l1norm w1trial 1 3000 w1segs rfl hres seg hseg

/-- Witness for C9's amended statement at the concrete trial `w1trial`. -/
theorem C9_one_frame_amended_witness :
    w1trial.split_segments l1norm 1 3000 = some w1segs ∧
    w1segs.map (fun s => (s.start, s.stop)) = [(0, 1)] := by
  obtain ⟨seg, hres, h0, h1⟩ := C9_one_frame_amended l1norm w1trial 1 3000 (by decide)
    (by decide) (by decide) (by decide) (by decide)
  have hW : w1trial.split_segments l1norm 1 3000 = some w1segs := by decide
  rw [hW] at hres
  have heq : w1segs = [seg] := Option.some_inj.mp hres
  rw [hW, heq]
  simp [h0, h1]

/-- The segments built from the consecutive pairs of a strictly sorted split
point list running from 0 to `N` partition `[0, N)`. -/
theorem segs_partition (sp2 : List Nat) (N : Nat) (hs : sp2.Sorted (· < ·))
    (h0 : 0 ∈ sp2) (hNmem : N ∈ sp2) (hub : ∀ x ∈ sp2, x ≤ N)
    (F : Nat × Nat → TrialSegment)
    (hFstart : ∀ ab, (F ab).start = ab.1) (hFstop : ∀ ab, (F ab).stop = ab.2) :
    (∀ seg ∈ (consecPairs sp2).map F, seg.start < seg.stop ∧ seg.stop ≤ N) ∧
    ((consecPairs sp2).map F).Pairwise (fun s1 s2 => s1.stop ≤ s2.start) ∧
    ((consecPairs sp2).map F).Chain' (fun s1 s2 => s1.stop = s2.start) ∧
    ∀ t, t < N → ∃! seg, seg ∈ (consecPairs sp2).map F ∧ seg.start ≤ t ∧ t < seg.stop := by
  refine ⟨?_, ?_, ?_, ?_⟩
  · intro seg hseg
    obtain ⟨ab, hab, rfl⟩ := List.mem_map.mp hseg
    rw [hFstart, hFstop]
    exact ⟨consecPairs_lt sp2 hs ab hab, hub ab.2 (consecPairs_mem_elems sp2 ab hab).2⟩
  · rw [List.pairwise_map]
    exact (consecPairs_pairwise sp2 hs).imp (fun h => by
      rw [hFstart, hFstop]; exact h)
  · rw [List.chain'_map]
    exact (consecPairs_chain sp2).imp (fun {a b} h => by
      rw [hFstart, hFstop]; exact h)
  · intro t ht
    obtain ⟨ab, hab, h1, h2⟩ :=
      consecPairs_cover sp2 hs t ⟨0, h0, Nat.zero_le t⟩ ⟨N, hNmem, ht⟩
    refine ⟨F ab, ⟨List.mem_map_of_mem F hab, by rw [hFstart]; exact h1,
      by rw [hFstop]; exact h2⟩, ?_⟩
    rintro seg' ⟨hmem', hs1, hs2⟩
    obtain ⟨ab', hab', rfl⟩ := List.mem_map.mp hmem'
    rw [hFstart] at hs1
    rw [hFstop] at hs2
    suffices h : ab' = ab by rw [h]
    obtain ⟨i, hi, hi1, hi2⟩ := (mem_consecPairs sp2 ab).mp hab
    obtain ⟨j, hj, hj1, hj2⟩ := (mem_consecPairs sp2 ab').mp hab'
    simp only [List.get_eq_getElem] at hi1 hi2 hj1 hj2
    have hidx := List.pairwise_iff_getElem.mp hs
    have hij : i = j := by
      by_contra hne
      rcases Nat.lt_or_ge i j with hlt | hge
      · have hle : ab.2 ≤ ab'.1 := by
          rw [hi2, hj1]
          rcases Nat.eq_or_lt_of_le (Nat.succ_le_of_lt hlt) with he | hl
          · subst he
            exact le_rfl
          · exact le_of_lt (hidx (i + 1) j (by omega) (by omega) hl)
        omega
      · have hlt : j < i := by omega
        have hle : ab'.2 ≤ ab.1 := by
          rw [hj2, hi1]
          rcases Nat.eq_or_lt_of_le (Nat.succ_le_of_lt hlt) with he | hl
          · subst he
            exact le_rfl
          · exact le_of_lt (hidx (j + 1) i (by omega) (by omega) hl)
        omega
    subst hij
    cases ab
    cases ab'
    simp only [Prod.mk.injEq]
    constructor
    · simp only at hi1 hj1
      rw [hi1, hj1]
    · simp only at hi2 hj2
      rw [hi2, hj2]

theorem boolTransitions_mem (l : List Bool) (x : Nat) (h : x ∈ boolTransitions l) :
    1 ≤ x ∧ x < l.length := by
  unfold boolTransitions at h
  rw [List.mem_filter, List.mem_range] at h
  refine ⟨?_, h.1⟩
  have := h.2
  rw [Bool.and_eq_true, decide_eq_true_eq] at this
  exact this.1

/-- C1: on an unerrored trial with at least one frame, a nonzero timestep,
well-formed plates and a positive length cap, `split_segments` produces a
list of segments whose `[start, stop)` ranges are strictly increasing,
pairwise non-overlapping, back-to-back, and cover `[0, N)` exactly: every
frame belongs to exactly one segment. -/
theorem C1_partition (nrm : Vec3 → ℚ) (tr : Trial) (mg : ℚ) (ms : Nat)
    (herr : tr.error = false) (hN : 1 ≤ tr.marker_observations.length)
    (hts : tr.timestep ≠ 0) (hms : 1 ≤ ms)
    (hpl : ∀ pl ∈ tr.plates, pl.forces.length = tr.marker_observations.length ∧
      pl.moments.length = tr.marker_observations.length) :
    ∃ segs : List TrialSegment, tr.split_segments nrm mg ms = some segs ∧
      (∀ seg ∈ segs, seg.start < seg.stop ∧ seg.stop ≤ tr.marker_observations.length) ∧
      segs.Pairwise (fun s1 s2 => s1.stop ≤ s2.start) ∧
      segs.Chain' (fun s1 s2 => s1.stop = s2.start) ∧
      ∀ t, t < tr.marker_observations.length →
        ∃! seg, seg ∈ segs ∧ seg.start ≤ t ∧ t < seg.stop := by
  obtain ⟨tf, htf, htflen⟩ := totalForces_some nrm tr.marker_observations.length tr.plates hpl
  have hmaplen : (tf.map (fun f => decide ((1 : ℚ) / 1000 < f))).length =
      tr.marker_observations.length := by
    rw [List.length_map, htflen]
  have hne : tf.map (fun f => decide ((1 : ℚ) / 1000 < f)) ≠ [] := by
    intro hcon
    rw [hcon] at hmaplen
    simp only [List.length_nil] at hmaplen
    omega
  obtain ⟨hf, hhf⟩ := Option.isSome_iff_exists.mp (gapFill_isSome mg tr.timestep _ hts hne)
  have hflen : hf.length = tr.marker_observations.length := by
    rw [gapFill_length mg tr.timestep _ hf hhf]
    exact hmaplen
  obtain ⟨lsp, hlsp⟩ := lengthSplitPoints_some
    (sortedDedup ([0, tr.marker_observations.length] ++
      boolTransitions (tr.marker_observations.map (fun obs => decide (0 < obs.length))) ++
      boolTransitions hf)) ms hms
  have hres : tr.split_segments nrm mg ms =
      some ((consecPairs (sortedDedup (sortedDedup ([0, tr.marker_observations.length] ++
        boolTransitions (tr.marker_observations.map (fun obs => decide (0 < obs.length))) ++
        boolTransitions hf) ++ lsp))).map (fun ab =>
          { TrialSegment.init tr ab.1 ab.2 with
              has_markers := (tr.marker_observations.map
                (fun obs => decide (0 < obs.length))).getD ab.1 false,
              has_forces := ((hf.drop ab.1).take (ab.2 - ab.1)).any id })) := by
    unfold Trial.split_segments
    simp only [herr, Bool.false_eq_true, if_false, Option.bind_eq_bind]
    rw [htf]
    simp only [Option.some_bind]
    rw [hhf]
    simp only [Option.some_bind]
    rw [hlsp]
    simp only [Option.some_bind]
  -- bounds on the members of the base split point set
  have hsp1mem : ∀ x ∈ sortedDedup ([0, tr.marker_observations.length] ++
      boolTransitions (tr.marker_observations.map (fun obs => decide (0 < obs.length))) ++
      boolTransitions hf), x ≤ tr.marker_observations.length := by
    intro x hx
    rw [mem_sortedDedup] at hx
    simp only [List.mem_append] at hx
    rcases hx with (hx | hx) | hx
    · simp only [List.mem_cons, List.mem_singleton, List.not_mem_nil, or_false] at hx
      rcases hx with hx | hx <;> omega
    · have := boolTransitions_mem _ x hx
      rw [List.length_map] at this
      omega
    · have := boolTransitions_mem _ x hx
      omega
  have h0sp1 : 0 ∈ sortedDedup ([0, tr.marker_observations.length] ++
      boolTransitions (tr.marker_observations.map (fun obs => decide (0 < obs.length))) ++
      boolTransitions hf) := by
    rw [mem_sortedDedup]
    simp
  have hNsp1 : tr.marker_observations.length ∈
      sortedDedup ([0, tr.marker_observations.length] ++
      boolTransitions (tr.marker_observations.map (fun obs => decide (0 < obs.length))) ++
      boolTransitions hf) := by
    rw [mem_sortedDedup]
    simp
  refine ⟨_, hres, ?_⟩
  have hpart := segs_partition
    (sortedDedup (sortedDedup ([0, tr.marker_observations.length] ++
      boolTransitions (tr.marker_observations.map (fun obs => decide (0 < obs.length))) ++
      boolTransitions hf) ++ lsp))
    tr.marker_observations.length
    (sortedDedup_strictSorted _)
    (by rw [mem_sortedDedup, List.mem_append]; exact Or.inl h0sp1)
    (by rw [mem_sortedDedup, List.mem_append]; exact Or.inl hNsp1)
    (by
      intro x hx
      rw [mem_sortedDedup, List.mem_append] at hx
      rcases hx with hx | hx
      · exact hsp1mem x hx
      · obtain ⟨pq, hpq, hg, hmem⟩ := (lengthSplitPoints_inv _ ms lsp hlsp).2 x hx
        have hms0 : 1 ≤ ms := hms
        have hbd := lengthSplitsFor_bounds pq.1 (pq.2 - pq.1) ms x hms0 hmem
        have hlt := consecPairs_lt _ (sortedDedup_strictSorted _) pq hpq
        have hq2 := hsp1mem pq.2 (consecPairs_mem_elems _ pq hpq).2
        omega)
    (fun ab => { TrialSegment.init tr ab.1 ab.2 with
        has_markers := (tr.marker_observations.map
          (fun obs => decide (0 < obs.length))).getD ab.1 false,
        has_forces := ((hf.drop ab.1).take (ab.2 - ab.1)).any id })
    (fun ab => rfl) (fun ab => rfl)
  exact hpart

/-- Witness for C1 at the concrete trial `w1trial`. -/
theorem C1_partition_witness :
    w1trial.split_segments l1norm 1 3000 = some w1segs ∧
    w1segs.all (fun s => decide (s.start < s.stop) && decide (s.stop ≤ 1)) = true := by
  obtain ⟨segs, hres, hbound, hpw, hchain, hcover⟩ :=
    C1_partition l1norm w1trial 1 3000 rfl (by decide) (by decide) (by decide) (by decide)
  have hW : w1trial.split_segments l1norm 1 3000 = some w1segs := by decide
  rw [hW] at hres
  have heq : w1segs = segs := Option.some_inj.mp hres
  refine ⟨hW, ?_⟩
  rw [List.all_eq_true]
  intro s hsm
  rw [heq] at hsm
  have hb := hbound s hsm
  simp only [Bool.and_eq_true, decide_eq_true_eq]
  exact ⟨hb.1, hb.2⟩

/-! ### Machinery for lowpass_filter -/

/-- Full specification of the non-zero-run detection loop: starting from a
valid intermediate state, the finished list consists of ordered, separated
runs of strictly positive norm with zero (or boundary) frames on both sides,
and covers every strictly positive frame. -/
theorem nzsGo_spec (norms : List ℚ) (T : Nat) :
    ∀ (steps t : Nat) (last : Option Nat) (acc : List (Nat × Nat)),
    steps + t = T →
    (∀ pr ∈ acc, pr.1 ≤ pr.2 ∧ pr.2 + 1 < t) →
    (∀ pr ∈ acc, ∀ j, pr.1 ≤ j → j ≤ pr.2 → 0 < norms.getD j 0) →
    (∀ pr ∈ acc, (pr.1 = 0 ∨ ¬ 0 < norms.getD (pr.1 - 1) 0) ∧
      ¬ 0 < norms.getD (pr.2 + 1) 0) →
    acc.Pairwise (fun a b => a.2 + 1 < b.1) →
    (∀ j, j < t → 0 < norms.getD j 0 →
      (∃ pr ∈ acc, pr.1 ≤ j ∧ j ≤ pr.2) ∨ (∃ l, last = some l ∧ l ≤ j)) →
    (∀ l, last = some l → l < t ∧ (∀ j, l ≤ j → j < t → 0 < norms.getD j 0) ∧
      (l = 0 ∨ ¬ 0 < norms.getD (l - 1) 0) ∧ ∀ pr ∈ acc, pr.2 + 1 < l) →
    (last = none → t = 0 ∨ ¬ 0 < norms.getD (t - 1) 0) →
    (∀ pr ∈ nonZeroSegmentsGo norms steps t last acc,
        pr.1 ≤ pr.2 ∧ pr.2 < T ∧
        (∀ j, pr.1 ≤ j → j ≤ pr.2 → 0 < norms.getD j 0) ∧
        (pr.1 = 0 ∨ ¬ 0 < norms.getD (pr.1 - 1) 0) ∧
        (pr.2 = T - 1 ∨ ¬ 0 < norms.getD (pr.2 + 1) 0)) ∧
    (nonZeroSegmentsGo norms steps t last acc).Pairwise (fun a b => a.2 + 1 < b.1) ∧
    (∀ j, j < T → 0 < norms.getD j 0 →
      ∃ pr ∈ nonZeroSegmentsGo norms steps t last acc, pr.1 ≤ j ∧ j ≤ pr.2) := by
  intro steps
  induction steps with
  | zero =>
    intro t last acc hT hI1 hI2 hI3 hI5 hcov hlast hnone
    have ht : t = T := by omega
    subst ht
    rcases last with _ | l
    · simp only [nonZeroSegmentsGo]
      refine ⟨?_, hI5, ?_⟩
      · intro pr hpr
        have h1 := hI1 pr hpr
        have h2 := hI2 pr hpr
        have h3 := hI3 pr hpr
        exact ⟨h1.1, by omega, h2, h3.1, Or.inr h3.2⟩
      · intro j hj hpos
        rcases hcov j hj hpos with h | ⟨l, hl, _⟩
        · exact h
        · exact absurd hl (by simp)
    · simp only [nonZeroSegmentsGo]
      obtain ⟨hlt, hposrun, hlb, hsep⟩ := hlast l rfl
      refine ⟨?_, ?_, ?_⟩
      · intro pr hpr
        rcases List.mem_append.mp hpr with hpr | hpr
        · have h1 := hI1 pr hpr
          have h2 := hI2 pr hpr
          have h3 := hI3 pr hpr
          exact ⟨h1.1, by omega, h2, h3.1, Or.inr h3.2⟩
        · simp only [List.mem_singleton] at hpr
          subst hpr
          refine ⟨by omega, by omega, ?_, hlb, Or.inl rfl⟩
          intro j hj1 hj2
          exact hposrun j hj1 (by omega)
      · rw [List.pairwise_append]
        refine ⟨hI5, List.pairwise_singleton _ _, ?_⟩
        intro a ha b hb
        simp only [List.mem_singleton] at hb
        subst hb
        exact hsep a ha
      · intro j hj hpos
        rcases hcov j hj hpos with ⟨pr, hpr, h1, h2⟩ | ⟨l', hl', hlj⟩
        · exact ⟨pr, List.mem_append_left _ hpr, h1, h2⟩
        · rw [Option.some_inj] at hl'
          subst hl'
          exact ⟨(l, t - 1), List.mem_append_right _ (List.mem_singleton_self _),
            hlj, by omega⟩
  | succ steps ih =>
    intro t last acc hT hI1 hI2 hI3 hI5 hcov hlast hnone
    by_cases hpos : 0 < norms.getD t 0
    · have hstep : nonZeroSegmentsGo norms (steps + 1) t last acc =
          nonZeroSegmentsGo norms steps (t + 1) (some (last.getD t)) acc := by
        simp only [nonZeroSegmentsGo, if_pos hpos]
      rw [hstep]
      apply ih (t + 1) (some (last.getD t)) acc (by omega)
      · intro pr hpr
        have := hI1 pr hpr
        omega
      · exact hI2
      · exact hI3
      · exact hI5
      · intro j hj hp
        rcases Nat.lt_or_ge j t with hjt | hjt
        · rcases hcov j hjt hp with h | ⟨l, hl, hlj⟩
          · exact Or.inl h
          · subst hl
            exact Or.inr ⟨l, rfl, hlj⟩
        · have hjeq : j = t := by omega
          subst hjeq
          rcases last with _ | l
          · exact Or.inr ⟨j, rfl, le_rfl⟩
          · obtain ⟨hlt, _, _, _⟩ := hlast l rfl
            exact Or.inr ⟨l, rfl, by omega⟩
      · intro l' hl'
        rw [Option.some_inj] at hl'
        rcases last with _ | l
        · simp only [Option.getD_none] at hl'
          subst hl'
          refine ⟨by omega, ?_, hnone rfl, ?_⟩
          · intro j hj1 hj2
            have hjt : j = t := by omega
            subst hjt
            exact hpos
          · intro pr hpr
            exact (hI1 pr hpr).2
        · simp only [Option.getD_some] at hl'
          subst hl'
          obtain ⟨hlt, hposrun, hlb, hsep⟩ := hlast l rfl
          refine ⟨by omega, ?_, hlb, hsep⟩
          intro j hj1 hj2
          rcases Nat.lt_or_ge j t with hjt | hjt
          · exact hposrun j hj1 hjt
          · have : j = t := by omega
            subst this
            exact hpos
      · intro hcon
        exact absurd hcon (by simp)
    · rcases last with _ | l
      · have hstep : nonZeroSegmentsGo norms (steps + 1) t none acc =
            nonZeroSegmentsGo norms steps (t + 1) none acc := by
          simp only [nonZeroSegmentsGo, if_neg hpos]
        rw [hstep]
        apply ih (t + 1) none acc (by omega)
        · intro pr hpr
          have := hI1 pr hpr
          omega
        · exact hI2
        · exact hI3
        · exact hI5
        · intro j hj hp
          rcases Nat.lt_or_ge j t with hjt | hjt
          · exact hcov j hjt hp
          · have : j = t := by omega
            subst this
            exact absurd hp hpos
        · intro l' hl'
          exact absurd hl' (by simp)
        · intro _
          right
          simpa using hpos
      · have hstep : nonZeroSegmentsGo norms (steps + 1) t (some l) acc =
            nonZeroSegmentsGo norms steps (t + 1) none (acc ++ [(l, t - 1)]) := by
          simp only [nonZeroSegmentsGo, if_neg hpos]
        rw [hstep]
        obtain ⟨hlt, hposrun, hlb, hsep⟩ := hlast l rfl
        apply ih (t + 1) none (acc ++ [(l, t - 1)]) (by omega)
        · intro pr hpr
          rcases List.mem_append.mp hpr with hpr | hpr
          · have := hI1 pr hpr
            omega
          · simp only [List.mem_singleton] at hpr
            subst hpr
            constructor
            · omega
            · simp only []
              omega
        · intro pr hpr
          rcases List.mem_append.mp hpr with hpr | hpr
          · exact hI2 pr hpr
          · simp only [List.mem_singleton] at hpr
            subst hpr
            intro j hj1 hj2
            exact hposrun j hj1 (by omega)
        · intro pr hpr
          rcases List.mem_append.mp hpr with hpr | hpr
          · exact hI3 pr hpr
          · simp only [List.mem_singleton] at hpr
            subst hpr
            refine ⟨hlb, ?_⟩
            have : t - 1 + 1 = t := by omega
            rw [this]
            exact hpos
        · rw [List.pairwise_append]
          refine ⟨hI5, List.pairwise_singleton _ _, ?_⟩
          intro a ha b hb
          simp only [List.mem_singleton] at hb
          subst hb
          exact hsep a ha
        · intro j hj hp
          rcases Nat.lt_or_ge j t with hjt | hjt
          · rcases hcov j hjt hp with ⟨pr, hpr, h1, h2⟩ | ⟨l', hl', hlj⟩
            · exact Or.inl ⟨pr, List.mem_append_left _ hpr, h1, h2⟩
            · rw [Option.some_inj] at hl'
              subst hl'
              exact Or.inl ⟨(l, t - 1), List.mem_append_right _ (List.mem_singleton_self _),
                hlj, by omega⟩
          · have : j = t := by omega
            subst this
            exact absurd hp hpos
        · intro l' hl'
          exact absurd hl' (by simp)
        · intro _
          right
          simpa using hpos

theorem nonZeroSegments_spec (norms : List ℚ) (T : Nat) :
    (∀ pr ∈ nonZeroSegments norms T,
        pr.1 ≤ pr.2 ∧ pr.2 < T ∧
        (∀ j, pr.1 ≤ j → j ≤ pr.2 → 0 < norms.getD j 0) ∧
        (pr.1 = 0 ∨ ¬ 0 < norms.getD (pr.1 - 1) 0) ∧
        (pr.2 = T - 1 ∨ ¬ 0 < norms.getD (pr.2 + 1) 0)) ∧
    (nonZeroSegments norms T).Pairwise (fun a b => a.2 + 1 < b.1) ∧
    (∀ j, j < T → 0 < norms.getD j 0 →
      ∃ pr ∈ nonZeroSegments norms T, pr.1 ≤ j ∧ j ≤ pr.2) := by
  unfold nonZeroSegments
  apply nzsGo_spec norms T T 0 none [] (by omega)
  · intro pr hpr
    exact absurd hpr (List.not_mem_nil pr)
  · intro pr hpr
    exact absurd hpr (List.not_mem_nil pr)
  · intro pr hpr
    exact absurd hpr (List.not_mem_nil pr)
  · exact List.Pairwise.nil
  · intro j hj _
    omega
  · intro l hl
    exact absurd hl (by simp)
  · intro _
    exact Or.inl rfl

theorem runs_cover_unique (out : List (Nat × Nat))
    (hpw : out.Pairwise (fun a b => a.2 + 1 < b.1))
    (r r' : Nat × Nat) (hr : r ∈ out) (hr' : r' ∈ out) (j : Nat)
    (h1 : r.1 ≤ j) (h2 : j ≤ r.2) (h1' : r'.1 ≤ j) (h2' : j ≤ r'.2) : r = r' := by
  obtain ⟨i, hi, hieq⟩ := List.mem_iff_getElem.mp hr
  obtain ⟨i', hi', hieq'⟩ := List.mem_iff_getElem.mp hr'
  have hidx := List.pairwise_iff_getElem.mp hpw
  rcases Nat.lt_trichotomy i i' with hlt | heq | hgt
  · have := hidx i i' hi hi' hlt
    rw [hieq, hieq'] at this
    omega
  · subst heq
    rw [← hieq, ← hieq']
  · have := hidx i' i hi' hi hgt
    rw [hieq, hieq'] at this
    omega

/-- Completeness: every maximal strictly-positive run appears in
`nonZeroSegments`. -/
theorem maximal_run_mem (norms : List ℚ) (T s e : Nat)
    (hse : s ≤ e) (heT : e < T)
    (hpos : ∀ j, s ≤ j → j ≤ e → 0 < norms.getD j 0)
    (hlb : s = 0 ∨ ¬ 0 < norms.getD (s - 1) 0)
    (hrb : e = T - 1 ∨ ¬ 0 < norms.getD (e + 1) 0) :
    (s, e) ∈ nonZeroSegments norms T := by
  obtain ⟨hruns, hpw, hcov⟩ := nonZeroSegments_spec norms T
  obtain ⟨pr, hpr, hc1, hc2⟩ := hcov s (by omega) (hpos s le_rfl hse)
  obtain ⟨hp1, hp2, hp3, hp4, hp5⟩ := hruns pr hpr
  have hs1 : pr.1 = s := by
    rcases Nat.lt_or_ge pr.1 s with hlt | hge
    · exfalso
      have hs1' : 1 ≤ s := by omega
      have hposm : 0 < norms.getD (s - 1) 0 := hp3 (s - 1) (by omega) (by omega)
      rcases hlb with h | h
      · omega
      · exact h hposm
    · omega
  have hs2 : pr.2 = e := by
    rcases Nat.lt_trichotomy pr.2 e with hlt | heq | hgt
    · exfalso
      have hposm : 0 < norms.getD (pr.2 + 1) 0 := hpos (pr.2 + 1) (by omega) (by omega)
      rcases hp5 with h | h
      · omega
      · exact h hposm
    · exact heq
    · exfalso
      have hposm : 0 < norms.getD (e + 1) 0 := hp3 (e + 1) (by omega) (by omega)
      rcases hrb with h | h
      · omega
      · exact h hposm
  have : pr = (s, e) := by
    cases pr
    simp only at hs1 hs2
    rw [hs1, hs2]
  rw [← this]
  exact hpr

theorem getElem?_zeroRange (l : List Vec3) (a b j : Nat) :
    (zeroRange l a b)[j]? = (l[j]?).map (fun v => if a ≤ j ∧ j < b then v3zero else v) := by
  simp [zeroRange]

theorem getElem?_writeRange (l : List Vec3) (a b : Nat) (vals : List Vec3) (j : Nat) :
    (writeRange l a b vals)[j]? =
      (l[j]?).map (fun v => if a ≤ j ∧ j < b then vals.getD (j - a) v3zero else v) := by
  simp [writeRange]

theorem zeroRange_length (l : List Vec3) (a b : Nat) : (zeroRange l a b).length = l.length := by
  simp [zeroRange]

theorem writeRange_length (l : List Vec3) (a b : Nat) (vals : List Vec3) :
    (writeRange l a b vals).length = l.length := by
  simp [writeRange]

theorem applyRuns_cons (filt : List Vec3 → List Vec3) (orig : PlateData) (r : Nat × Nat)
    (rest : List (Nat × Nat)) (p : PlateData) :
    applyRuns filt orig (r :: rest) p = applyRuns filt orig rest
      (if r.2 - r.1 < 10 then
        { p with forces := zeroRange p.forces r.1 r.2,
                 cops := zeroRange p.cops r.1 r.2,
                 moments := zeroRange p.moments r.1 r.2 }
      else
        { p with forces := writeRange p.forces r.1 r.2 (filt (windowOf orig.forces r.1 r.2)),
                 cops := writeRange p.cops r.1 r.2 (filt (windowOf orig.cops r.1 r.2)),
                 moments := writeRange p.moments r.1 r.2 (filt (windowOf orig.moments r.1 r.2)) }) := by
  rfl

theorem applyRuns_untouched (filt : List Vec3 → List Vec3) (orig : PlateData) :
    ∀ (runs : List (Nat × Nat)) (p : PlateData) (t : Nat),
    (∀ pr ∈ runs, ¬(pr.1 ≤ t ∧ t < pr.2)) →
    (applyRuns filt orig runs p).forces[t]? = p.forces[t]? ∧
    (applyRuns filt orig runs p).cops[t]? = p.cops[t]? ∧
    (applyRuns filt orig runs p).moments[t]? = p.moments[t]? := by
  intro runs
  induction runs with
  | nil =>
    intro p t _
    exact ⟨rfl, rfl, rfl⟩
  | cons r rest ih =>
    intro p t h
    rw [applyRuns_cons]
    have hr := h r (List.mem_cons_self _ _)
    have hrest : ∀ pr ∈ rest, ¬(pr.1 ≤ t ∧ t < pr.2) :=
      fun pr hpr => h pr (List.mem_cons_of_mem _ hpr)
    by_cases hshort : r.2 - r.1 < 10
    · rw [if_pos hshort]
      obtain ⟨ihf, ihc, ihm⟩ := ih _ t hrest
      rw [ihf, ihc, ihm]
      simp only [getElem?_zeroRange]
      refine ⟨?_, ?_, ?_⟩ <;>
        · rcases hx : _[t]? with _ | v
          · rfl
          · simp [hr]
    · rw [if_neg hshort]
      obtain ⟨ihf, ihc, ihm⟩ := ih _ t hrest
      rw [ihf, ihc, ihm]
      simp only [getElem?_writeRange]
      refine ⟨?_, ?_, ?_⟩ <;>
        · rcases hx : _[t]? with _ | v
          · rfl
          · simp [hr]

theorem getElem?_map_const (l1 l2 : List Vec3) (t : Nat) (c : Vec3) (h : l1.length = l2.length) :
    (l1[t]?).map (fun _ => c) = (l2[t]?).map (fun _ => c) := by
  rcases Nat.lt_or_ge t l1.length with hlt | hge
  · rw [List.getElem?_eq_getElem hlt, List.getElem?_eq_getElem (by omega)]
    rfl
  · rw [List.getElem?_eq_none (by omega), List.getElem?_eq_none (by omega)]

theorem applyRuns_at_run (filt : List Vec3 → List Vec3) (orig : PlateData) :
    ∀ (runs : List (Nat × Nat)) (p : PlateData) (r : Nat × Nat) (t : Nat),
    runs.Pairwise (fun a b => a.2 + 1 < b.1) → r ∈ runs → r.1 ≤ t → t < r.2 →
    (applyRuns filt orig runs p).forces[t]? =
      (p.forces[t]?).map (fun _ =>
        if r.2 - r.1 < 10 then v3zero
        else (filt (windowOf orig.forces r.1 r.2)).getD (t - r.1) v3zero) ∧
    (applyRuns filt orig runs p).cops[t]? =
      (p.cops[t]?).map (fun _ =>
        if r.2 - r.1 < 10 then v3zero
        else (filt (windowOf orig.cops r.1 r.2)).getD (t - r.1) v3zero) ∧
    (applyRuns filt orig runs p).moments[t]? =
      (p.moments[t]?).map (fun _ =>
        if r.2 - r.1 < 10 then v3zero
        else (filt (windowOf orig.moments r.1 r.2)).getD (t - r.1) v3zero) := by
  intro runs
  induction runs with
  | nil =>
    intro p r t _ hr _ _
    exact absurd hr (List.not_mem_nil r)
  | cons r0 rest ih =>
    intro p r t hpw hr hrt1 hrt2
    rw [applyRuns_cons]
    rcases List.mem_cons.mp hr with heq | hmem
    · subst heq
      have hrest : ∀ pr ∈ rest, ¬(pr.1 ≤ t ∧ t < pr.2) := by
        intro pr hpr hcon
        have := (List.pairwise_cons.mp hpw).1 pr hpr
        omega
      have hcond : r.1 ≤ t ∧ t < r.2 := ⟨hrt1, hrt2⟩
      by_cases hshort : r.2 - r.1 < 10
      · rw [if_pos hshort]
        obtain ⟨huf, huc, hum⟩ := applyRuns_untouched filt orig rest _ t hrest
        rw [huf, huc, hum]
        simp only [getElem?_zeroRange, if_pos hshort]
        refine ⟨?_, ?_, ?_⟩ <;>
          · rcases hx : _[t]? with _ | v
            · rfl
            · simp [hcond]
      · rw [if_neg hshort]
        obtain ⟨huf, huc, hum⟩ := applyRuns_untouched filt orig rest _ t hrest
        rw [huf, huc, hum]
        simp only [getElem?_writeRange, if_neg hshort]
        refine ⟨?_, ?_, ?_⟩ <;>
          · rcases hx : _[t]? with _ | v
            · rfl
            · simp [hcond]
    · have hpw' := (List.pairwise_cons.mp hpw).2
      obtain ⟨ihf, ihc, ihm⟩ := ih _ r t hpw' hmem hrt1 hrt2
      rw [ihf, ihc, ihm]
      by_cases hshort : r0.2 - r0.1 < 10
      · rw [if_pos hshort]
        refine ⟨?_, ?_, ?_⟩ <;>
          · apply getElem?_map_const
            simp [zeroRange_length]
      · rw [if_neg hshort]
        refine ⟨?_, ?_, ?_⟩ <;>
          · apply getElem?_map_const
            simp [writeRange_length]

theorem getD_range_map (f : Nat → ℚ) (T j : Nat) (hj : j < T) :
    ((List.range T).map f).getD j 0 = f j := by
  rw [List.getD_eq_getElem?_getD]
  simp [List.getElem?_range, hj]

theorem lowpass_plates_eq (nrm : Vec3 → ℚ) (filtPoses : NpMatrix → NpMatrix)
    (filt : List Vec3 → List Vec3) (ts : ℚ) (seg out : TrialSegment) (poses : NpMatrix)
    (h : seg.lowpass_filter nrm filtPoses filt ts = some (out, true))
    (hkp : seg.kinematics_poses = some poses) :
    10 ≤ poses.ncols ∧
    out.plates = seg.plates.map (fun p =>
      applyRuns filt p (nonZeroSegments ((List.range poses.ncols).map
        (fun t => nrm (p.forces.getD t v3zero))) poses.ncols) p) := by
  by_cases hts : ts = 0
  · rw [TrialSegment.lowpass_filter, if_pos hts] at h
    exact absurd h (by simp)
  · simp only [TrialSegment.lowpass_filter, if_neg hts, hkp] at h
    by_cases hlen : poses.ncols < 10
    · rw [if_pos hlen] at h
      simp at h
    · rw [if_neg hlen] at h
      rcases hm : seg.marker_fitter_result with _ | m
      · rw [hm] at h
        exact absurd h (by simp)
      · rw [hm] at h
        simp only [Option.some.injEq, Prod.mk.injEq] at h
        refine ⟨by omega, ?_⟩
        rw [← h.1]

theorem lowpass_plate_at (nrm : Vec3 → ℚ) (filtPoses : NpMatrix → NpMatrix)
    (filt : List Vec3 → List Vec3) (ts : ℚ) (seg out : TrialSegment) (poses : NpMatrix)
    (h : seg.lowpass_filter nrm filtPoses filt ts = some (out, true))
    (hkp : seg.kinematics_poses = some poses)
    (p : PlateData) (i : Nat) (hp : seg.plates[i]? = some p) :
    out.plates[i]? = some (applyRuns filt p (nonZeroSegments ((List.range poses.ncols).map
      (fun t => nrm (p.forces.getD t v3zero))) poses.ncols) p) := by
  obtain ⟨-, hpl⟩ := lowpass_plates_eq nrm filtPoses filt ts seg out poses h hkp
  simp [hpl, List.getElem?_map, hp]

/-- C10 counterexample: on a 12-frame plate with zero force everywhere but a
nonzero center of pressure at frame 5, `lowpass_filter` returns normally and
the output CoP at the zero-norm frame 5 is still `(7, 0, 0)` - unchanged, but
NOT the zero vector the claim promises for all three channels. -/
theorem C10_counterexample :
    (((mkSeg12 c10plate).lowpass_filter l1norm id id (1 / 100)).map
        (fun ob => (ob.2, ob.1.plates.map (fun pl =>
          (pl.forces.getD 5 v3zero, pl.cops.getD 5 v3zero)))))
      = some (true, [(v3zero, axisVec 7)])
    ∧ l1norm (c10plate.forces.getD 5 v3zero) = 0
    ∧ axisVec 7 ≠ v3zero := by
  refine ⟨by decide, by decide, by decide⟩

/-- C10 (amended): a frame whose pre-filter force norm is zero belongs to no
detected contact run, so `lowpass_filter` leaves its force, CoP and moment
entries of the plate EXACTLY as they were - in particular never a filtered
value.  (The original claim's further gloss that those entries are therefore
zero vectors holds for the force channel under a definite norm, but is false
for CoP and moment, which keep whatever nonzero values they had: see the
counterexample.) -/
theorem C10_zero_norm_frame_unchanged_amended
    (nrm : Vec3 → ℚ) (filtPoses : NpMatrix → NpMatrix) (filt : List Vec3 → List Vec3)
    (ts : ℚ) (seg out : TrialSegment) (poses : NpMatrix)
    (h : seg.lowpass_filter nrm filtPoses filt ts = some (out, true))
    (hkp : seg.kinematics_poses = some poses)
    (p : PlateData) (i : Nat) (hp : seg.plates[i]? = some p)
    (t : Nat) (hz : nrm (p.forces.getD t v3zero) = 0) :
    ∃ q, out.plates[i]? = some q ∧
      q.forces[t]? = p.forces[t]? ∧ q.cops[t]? = p.cops[t]? ∧
      q.moments[t]? = p.moments[t]? := by
  refine ⟨_, lowpass_plate_at nrm filtPoses filt ts seg out poses h hkp p i hp, ?_⟩
  apply applyRuns_untouched
  intro pr hpr hcon
  obtain ⟨hruns, -, -⟩ := nonZeroSegments_spec ((List.range poses.ncols).map
    (fun s => nrm (p.forces.getD s v3zero))) poses.ncols
  obtain ⟨h1, h2, h3, -, -⟩ := hruns pr hpr
  have htT : t < poses.ncols := by omega
  have hpos := h3 t hcon.1 (by omega)
  rw [getD_range_map _ _ t htT, hz] at hpos
  exact lt_irrefl 0 hpos

theorem C10_zero_norm_frame_unchanged_amended_witness :
    ∃ q, c10out.plates[0]? = some q ∧
      q.forces[5]? = c10plate.forces[5]? ∧ q.cops[5]? = c10plate.cops[5]? ∧
      q.moments[5]? = c10plate.moments[5]? :=
  C10_zero_norm_frame_unchanged_amended l1norm id id (1 / 100) (mkSeg12 c10plate) c10out posesM
    (by rfl) (by rfl) c10plate 0 (by rfl) 5 (by decide)

/-- C4 counterexample: on `c4plate` the contact run is frames 0-2 (three
frames, detected as the inclusive pair `(0, 2)`), well under the claimed
10-frame bound, yet `lowpass_filter` leaves the run's LAST frame untouched:
the output force at frame 2 is still `(100, 0, 0)`, not the zero vector the
claim promises for every frame of a short run. -/
theorem C4_counterexample :
    nonZeroSegments ((List.range 12).map (fun t => l1norm (c4plate.forces.getD t v3zero))) 12
      = [(0, 2)]
    ∧ (((mkSeg12 c4plate).lowpass_filter l1norm id id (1 / 100)).map
        (fun ob => (ob.2, ob.1.plates.map (fun pl => pl.forces.getD 2 v3zero))))
      = some (true, [axisVec 100])
    ∧ 0 < l1norm (c4plate.forces.getD 2 v3zero)
    ∧ axisVec 100 ≠ v3zero := by
  refine ⟨by decide, by decide, by decide, by decide⟩

/-- C4 (amended): a maximal contact run is detected as an INCLUSIVE index
pair `(s, e)` but consumed as the half-open range `[s, e)`: the run (which
spans `e - s + 1` frames) is zeroed when `e - s < 10` - i.e. when it has at
most 10 frames, not the claimed fewer than 10 - and overwritten with the
filtered block otherwise (at least 11 frames), and in EITHER case only the
frames `s ≤ t < e` are written: the run's last frame `e` always keeps its
original force, CoP and moment. -/
theorem C4_run_processing_amended
    (nrm : Vec3 → ℚ) (filtPoses : NpMatrix → NpMatrix) (filt : List Vec3 → List Vec3)
    (ts : ℚ) (seg out : TrialSegment) (poses : NpMatrix)
    (h : seg.lowpass_filter nrm filtPoses filt ts = some (out, true))
    (hkp : seg.kinematics_poses = some poses)
    (p : PlateData) (i : Nat) (hp : seg.plates[i]? = some p)
    (s e : Nat) (hse : s ≤ e) (heT : e < poses.ncols)
    (hpos : ∀ j, s ≤ j → j ≤ e → 0 < nrm (p.forces.getD j v3zero))
    (hlb : s = 0 ∨ ¬ 0 < nrm (p.forces.getD (s - 1) v3zero))
    (hrb : e = poses.ncols - 1 ∨ ¬ 0 < nrm (p.forces.getD (e + 1) v3zero)) :
    ∃ q, out.plates[i]? = some q ∧
      (∀ t, s ≤ t → t < e →
        q.forces[t]? = (p.forces[t]?).map (fun _ =>
          if e - s < 10 then v3zero
          else (filt (windowOf p.forces s e)).getD (t - s) v3zero) ∧
        q.cops[t]? = (p.cops[t]?).map (fun _ =>
          if e - s < 10 then v3zero
          else (filt (windowOf p.cops s e)).getD (t - s) v3zero) ∧
        q.moments[t]? = (p.moments[t]?).map (fun _ =>
          if e - s < 10 then v3zero
          else (filt (windowOf p.moments s e)).getD (t - s) v3zero)) ∧
      q.forces[e]? = p.forces[e]? ∧ q.cops[e]? = p.cops[e]? ∧
      q.moments[e]? = p.moments[e]? := by
  have hpos' : ∀ j, s ≤ j → j ≤ e →
      0 < ((List.range poses.ncols).map (fun t => nrm (p.forces.getD t v3zero))).getD j 0 := by
    intro j hj1 hj2
    rw [getD_range_map _ _ j (by omega)]
    exact hpos j hj1 hj2
  have hlb' : s = 0 ∨ ¬ 0 <
      ((List.range poses.ncols).map (fun t => nrm (p.forces.getD t v3zero))).getD (s - 1) 0 := by
    rcases Nat.eq_zero_or_pos s with hs0 | hs1
    · exact Or.inl hs0
    · rcases hlb with h0 | hneg
      · exact Or.inl h0
      · right
        rw [getD_range_map _ _ (s - 1) (by omega)]
        exact hneg
  have hrb' : e = poses.ncols - 1 ∨ ¬ 0 <
      ((List.range poses.ncols).map (fun t => nrm (p.forces.getD t v3zero))).getD (e + 1) 0 := by
    rcases hrb with h0 | hneg
    · exact Or.inl h0
    · by_cases heq : e = poses.ncols - 1
      · exact Or.inl heq
      · right
        rw [getD_range_map _ _ (e + 1) (by omega)]
        exact hneg
  have hmem := maximal_run_mem
    ((List.range poses.ncols).map (fun t => nrm (p.forces.getD t v3zero))) poses.ncols
    s e hse heT hpos' hlb' hrb'
  obtain ⟨-, hpw, -⟩ := nonZeroSegments_spec
    ((List.range poses.ncols).map (fun t => nrm (p.forces.getD t v3zero))) poses.ncols
  refine ⟨_, lowpass_plate_at nrm filtPoses filt ts seg out poses h hkp p i hp, ?_, ?_⟩
  · intro t ht1 ht2
    exact applyRuns_at_run filt p
      (nonZeroSegments ((List.range poses.ncols).map
        (fun t => nrm (p.forces.getD t v3zero))) poses.ncols)
      p (s, e) t hpw hmem ht1 ht2
  · apply applyRuns_untouched
    intro pr hpr hcon
    have hpr' : pr = (s, e) := runs_cover_unique _ hpw pr (s, e) hpr hmem e
      hcon.1 (le_of_lt hcon.2) hse le_rfl
    rw [hpr'] at hcon
    exact lt_irrefl e hcon.2

theorem C4_run_processing_amended_witness :
    ∃ q, c4out.plates[0]? = some q ∧
      (∀ t, 0 ≤ t → t < 2 →
        q.forces[t]? = (c4plate.forces[t]?).map (fun _ =>
          if 2 - 0 < 10 then v3zero
          else (id (windowOf c4plate.forces 0 2)).getD (t - 0) v3zero) ∧
        q.cops[t]? = (c4plate.cops[t]?).map (fun _ =>
          if 2 - 0 < 10 then v3zero
          else (id (windowOf c4plate.cops 0 2)).getD (t - 0) v3zero) ∧
        q.moments[t]? = (c4plate.moments[t]?).map (fun _ =>
          if 2 - 0 < 10 then v3zero
          else (id (windowOf c4plate.moments 0 2)).getD (t - 0) v3zero)) ∧
      q.forces[2]? = c4plate.forces[2]? ∧ q.cops[2]? = c4plate.cops[2]? ∧
      q.moments[2]? = c4plate.moments[2]? :=
  C4_run_processing_amended l1norm id id (1 / 100) (mkSeg12 c4plate) c4out posesM
    (by rfl) (by rfl) c4plate 0 (by rfl) 0 2 (by decide) (by decide)
    (by intro j h1 h2; interval_cases j <;> decide) (Or.inl rfl) (by right; decide)

end ClaimProofs
